import Mathlib

/-!
Verification development for the memory-aware admission/placement engine of a
request router for LLM inference replicas (vLLM production stack).

The development shallowly embeds, from the repository's Python sources:
  * `src/vllm_router/stats/request_stats.py` — the process-wide
    `RequestStatsMonitor` (lifecycle hooks, sliding-window monitors, and the
    KV-block estimators `estimate_allocated_blocks` /
    `estimate_pending_reserved_blocks`), together with the `SingletonMeta`
    construction discipline;
  * `src/vllm_router/routers/routing_logic.py` — the placement policies
    (`RoundRobinRouter`, `LeastLoadedRouter`, `CustomRouter`, the session
    router's QPS fallback) and the Head-Room Admission (HRA) sweep
    `HRARouter._try_schedule`.

Modelling conventions:
  * Python `dict`s are embedded as association lists with a normalising
    update (`aset` replaces every binding of the key); all dictionary
    observations in the embedded code go through `alookup`, for which this
    normalisation is behaviour-preserving.
  * Python `set`s of request ids are embedded as lists with
    membership-guarded insertion.
  * Python floats (timestamps, window sizes, the 0.6 decode/prefill factor
    and the 0.03 safety fraction) are embedded as exact rationals;
    Python ints are `Nat`/`Int` (they are unbounded in Python).
  * A Python statement that raises (`KeyError` on a missing dictionary key,
    `ZeroDivisionError`, a failing `assert`) is embedded as
    `Except.error ()`; hooks thread state monadically so an error aborts
    the call, discarding the partial update (no set-valued field is
    mutated before any of the embedded error points, so this is faithful
    for the properties proved here).
-/

/-! ### Association-list maps and id sets -/

def alookup {α β : Type} [DecidableEq α] : List (α × β) → α → Option β
  | [], _ => none
  | p :: l, k => if p.1 = k then some p.2 else alookup l k

def aset {α β : Type} [DecidableEq α] (l : List (α × β)) (k : α) (v : β) : List (α × β) :=
  (k, v) :: l.filter (fun p => decide (p.1 ≠ k))

def aerase {α β : Type} [DecidableEq α] (l : List (α × β)) (k : α) : List (α × β) :=
  l.filter (fun p => decide (p.1 ≠ k))

def sinsert (x : String) (l : List String) : List String :=
  if x ∈ l then l else x :: l

def sdiscard (x : String) (l : List String) : List String :=
  l.filter (fun y => decide (y ≠ x))

theorem alookup_aset {α β : Type} [DecidableEq α] (l : List (α × β)) (k k' : α) (v : β) :
    alookup (aset l k v) k' = if k = k' then some v else alookup l k' := by
  unfold aset
  induction l with
  | nil => simp [alookup]
  | cons p t ih =>
    by_cases hp : p.1 = k
    · by_cases hk : k = k' <;> simp [alookup, hp, hk] at ih ⊢ <;> simpa [alookup, hp, hk] using ih
    · by_cases hq : p.1 = k'
      · simp only [alookup, List.filter]
        by_cases hk : k = k' <;> simp_all [alookup]
      · by_cases hk : k = k' <;> simp_all [alookup]

theorem alookup_aerase {α β : Type} [DecidableEq α] (l : List (α × β)) (k k' : α) :
    alookup (aerase l k) k' = if k = k' then none else alookup l k' := by
  unfold aerase
  induction l with
  | nil => simp [alookup]
  | cons p t ih =>
    by_cases hp : p.1 = k <;> by_cases hk : k = k' <;>
      simp_all [alookup, List.filter] <;> simp_all [alookup]

theorem mem_sinsert (x y : String) (l : List String) :
    y ∈ sinsert x l ↔ y = x ∨ y ∈ l := by
  unfold sinsert
  by_cases h : x ∈ l
  · simp only [if_pos h]
    constructor
    · exact fun hy => Or.inr hy
    · rintro (rfl | hy)
      · exact h
      · exact hy
  · simp [if_neg h]

theorem mem_sdiscard (x y : String) (l : List String) :
    y ∈ sdiscard x l ↔ y ∈ l ∧ y ≠ x := by
  unfold sdiscard
  simp

theorem alookup_eq_some_mem {α β : Type} [DecidableEq α] (l : List (α × β)) (k : α) (v : β)
    (h : alookup l k = some v) : (k, v) ∈ l := by
  induction l with
  | nil => simp [alookup] at h
  | cons p t ih =>
    by_cases hp : p.1 = k
    · simp only [alookup, if_pos hp, Option.some.injEq] at h
      subst h
      subst hp
      exact List.mem_cons_self _ _
    · simp only [alookup, if_neg hp] at h
      exact List.mem_cons_of_mem _ (ih h)

theorem alookup_isSome_iff_mem_keys {α β : Type} [DecidableEq α] (l : List (α × β)) (k : α) :
    (alookup l k).isSome = true ↔ ∃ p ∈ l, p.1 = k := by
  induction l with
  | nil => simp [alookup]
  | cons p t ih =>
    by_cases hp : p.1 = k
    · simp only [alookup, if_pos hp, Option.isSome_some, true_iff]
      exact ⟨p, List.mem_cons_self _ _, hp⟩
    · simp only [alookup, if_neg hp, ih]
      constructor
      · rintro ⟨q, hq, hqk⟩
        exact ⟨q, List.mem_cons_of_mem _ hq, hqk⟩
      · rintro ⟨q, hq, hqk⟩
        rcases List.mem_cons.mp hq with hq | hq
        · subst hq; exact absurd hqk hp
        · exact ⟨q, hq, hqk⟩

/-! ### vLLM engine configuration constants (source: request_stats.py) -/

def BLOCK_SIZE : ℕ := 16

def TOTAL_NUMBER_OF_BLOCKS : ℕ := 2756

/-- `DECODE_TO_PREFILL_RATIO = 0.6` in the source, embedded exactly. -/
def decodeToPrefillFactor : ℚ := 6 / 10

/-- `SAFETY_FRACTION = 0.03` in the source, embedded exactly. -/
def SAFETY_FRACTION : ℚ := 3 / 100

/-! ### MovingAverageMonitor (sliding window) -/

structure MovingAvg where
  sliding_window_size : ℚ
  timestamps : List ℚ
  values : List ℚ
deriving DecidableEq

def mkMovingAvg (w : ℚ) : MovingAvg :=
  { sliding_window_size := w, timestamps := [], values := [] }

/-- Head eviction loop: drop `(t₀, v₀)` pairs while `t₀ < t − W`. -/
def maEvict (w t : ℚ) : List ℚ → List ℚ → List ℚ × List ℚ
  | t0 :: ts, v0 :: vs =>
    if t0 < t - w then maEvict w t ts vs else (t0 :: ts, v0 :: vs)
  | ts, vs => (ts, vs)

def maUpdate (m : MovingAvg) (t v : ℚ) : MovingAvg :=
  let p := maEvict m.sliding_window_size t (m.timestamps ++ [t]) (m.values ++ [v])
  { m with timestamps := p.1, values := p.2 }

def maUpdateNoValue (m : MovingAvg) (t : ℚ) : MovingAvg :=
  let p := maEvict m.sliding_window_size t m.timestamps m.values
  { m with timestamps := p.1, values := p.2 }

/-! ### RequestStatsMonitor state (source: request_stats.py, `__init__`) -/

structure MonState where
  sliding_window_size : ℚ
  qps_monitors : List (String × MovingAvg)
  ttft_monitors : List (String × MovingAvg)
  latency_monitors : List (String × MovingAvg)
  decoding_length_monitors : List (String × MovingAvg)
  request_arrival_time : List (String × ℚ)
  first_token_time : List ((String × String) × ℚ)
  in_prefill_requests_ids : List (String × List String)
  in_decoding_requests_ids : List (String × List String)
  finished_requests : List (String × ℕ)
  request_decode_tokens : List (String × List (String × ℕ))
  request_prefill_tokens : List (String × List (String × ℕ))
  swapped_requests : List (String × ℕ)
  first_query_time : Option ℚ
deriving DecidableEq

def initMon (w : ℚ) : MonState :=
  { sliding_window_size := w
    qps_monitors := []
    ttft_monitors := []
    latency_monitors := []
    decoding_length_monitors := []
    request_arrival_time := []
    first_token_time := []
    in_prefill_requests_ids := []
    in_decoding_requests_ids := []
    finished_requests := []
    request_decode_tokens := []
    request_prefill_tokens := []
    swapped_requests := []
    first_query_time := none }

/-! ### Lifecycle hooks (source: request_stats.py) -/

/-- `on_request_arrival`: record arrival time, set `first_query_time` if unset. -/
def on_request_arrival (s : MonState) (request_id : String) (timestamp : ℚ) : MonState :=
  { s with
    request_arrival_time := aset s.request_arrival_time request_id timestamp
    first_query_time :=
      match s.first_query_time with
      | none => some timestamp
      | some t0 => some t0 }

/-- `on_request_start`: tick the per-url QPS window with value 1
(creating the window on first use). -/
def on_request_start (s : MonState) (engine_url : String) (_request_id : String)
    (timestamp : ℚ) : MonState :=
  let m := (alookup s.qps_monitors engine_url).getD (mkMovingAvg s.sliding_window_size)
  { s with qps_monitors := aset s.qps_monitors engine_url (maUpdate m timestamp 1) }

/-- `on_request_routed`: record the prefill-token count and add the id to the
url's in-prefill set (creating either container on first use). -/
def on_request_routed (s : MonState) (engine_url : String) (request_id : String)
    (prefill_tokens : ℕ) : MonState :=
  let pt := (alookup s.request_prefill_tokens engine_url).getD []
  let s1 := { s with
    request_prefill_tokens :=
      aset s.request_prefill_tokens engine_url (aset pt request_id prefill_tokens) }
  let ps := (alookup s1.in_prefill_requests_ids engine_url).getD []
  { s1 with
    in_prefill_requests_ids :=
      aset s1.in_prefill_requests_ids engine_url (sinsert request_id ps) }

/-- Kill, block 1: `if request_id in self.request_arrival_time:` discard from
the url's in-prefill set (unguarded `[engine_url]` access — `KeyError` when
the url key is missing, embedded as `Except.error ()`) and delete the
arrival record. -/
def killArrivalBlock (s : MonState) (engine_url : String) (request_id : String) :
    Except Unit MonState :=
  match alookup s.request_arrival_time request_id with
  | none => Except.ok s
  | some _ =>
    match alookup s.in_prefill_requests_ids engine_url with
    | none => Except.error ()
    | some ps =>
      Except.ok { s with
        in_prefill_requests_ids :=
          aset s.in_prefill_requests_ids engine_url (sdiscard request_id ps)
        request_arrival_time := aerase s.request_arrival_time request_id }

/-- Kill, block 2: `if (engine_url, request_id) in self.first_token_time:`
discard from the url's in-decoding set (unguarded access, `KeyError` when the
url key is missing) and delete the first-token record. -/
def killFirstTokenBlock (s : MonState) (engine_url : String) (request_id : String) :
    Except Unit MonState :=
  match alookup s.first_token_time (engine_url, request_id) with
  | none => Except.ok s
  | some _ =>
    match alookup s.in_decoding_requests_ids engine_url with
    | none => Except.error ()
    | some ds =>
      Except.ok { s with
        in_decoding_requests_ids :=
          aset s.in_decoding_requests_ids engine_url (sdiscard request_id ds)
        first_token_time := aerase s.first_token_time (engine_url, request_id) }

/-- Guarded deletion of the decode-token entry, removing the url key when its
inner dict becomes empty (this code appears verbatim in both
`on_request_kill` and `on_request_complete`). -/
def dropDecodeTokens (s : MonState) (engine_url : String) (request_id : String) : MonState :=
  match alookup s.request_decode_tokens engine_url with
  | some dt =>
    if (alookup dt request_id).isSome then
      if aerase dt request_id = [] then
        { s with request_decode_tokens := aerase s.request_decode_tokens engine_url }
      else
        { s with
          request_decode_tokens := aset s.request_decode_tokens engine_url (aerase dt request_id) }
    else s
  | none => s

/-- Guarded deletion of the prefill-token entry, removing the url key when its
inner dict becomes empty (shared by `on_request_kill` and
`on_request_complete`). -/
def dropPrefillTokens (s : MonState) (engine_url : String) (request_id : String) : MonState :=
  match alookup s.request_prefill_tokens engine_url with
  | some pt =>
    if (alookup pt request_id).isSome then
      if aerase pt request_id = [] then
        { s with request_prefill_tokens := aerase s.request_prefill_tokens engine_url }
      else
        { s with
          request_prefill_tokens := aset s.request_prefill_tokens engine_url (aerase pt request_id) }
    else s
  | none => s

/-- `on_request_kill`: best-effort removal of all per-request state, running
the four source blocks in order. -/
def on_request_kill (s : MonState) (engine_url : String) (request_id : String) :
    Except Unit MonState :=
  match killArrivalBlock s engine_url request_id with
  | .error e => .error e
  | .ok s1 =>
    match killFirstTokenBlock s1 engine_url request_id with
    | .error e => .error e
    | .ok s2 =>
      Except.ok (dropPrefillTokens (dropDecodeTokens s2 engine_url request_id)
        engine_url request_id)

/-- `on_request_response`: always increment the decode-token count; on the
first token, either self-heal via `on_request_kill` when the arrival record is
missing, or move the id from in-prefill to in-decoding, record the first-token
time and update the TTFT window.  The unguarded
`self.in_prefill_requests_ids[engine_url].discard(...)` is a `KeyError` when
no request was ever routed to `engine_url`. -/
def on_request_response (s : MonState) (engine_url : String) (request_id : String)
    (timestamp : ℚ) (is_first_token : Bool) : Except Unit MonState :=
  let dt := (alookup s.request_decode_tokens engine_url).getD []
  let cur := (alookup dt request_id).getD 0
  let s1 := { s with
    request_decode_tokens :=
      aset s.request_decode_tokens engine_url (aset dt request_id (cur + 1)) }
  if is_first_token = false then Except.ok s1
  else
    match alookup s1.request_arrival_time request_id with
    | none => on_request_kill s1 engine_url request_id
    | some arr =>
      match alookup s1.in_prefill_requests_ids engine_url with
      | none => Except.error ()
      | some ps =>
        let s2 := { s1 with
          in_prefill_requests_ids :=
            aset s1.in_prefill_requests_ids engine_url (sdiscard request_id ps) }
        let ds := (alookup s2.in_decoding_requests_ids engine_url).getD []
        let s3 := { s2 with
          in_decoding_requests_ids :=
            aset s2.in_decoding_requests_ids engine_url (sinsert request_id ds) }
        let s4 := { s3 with
          first_token_time := aset s3.first_token_time (engine_url, request_id) timestamp }
        let m := (alookup s4.ttft_monitors engine_url).getD (mkMovingAvg s.sliding_window_size)
        Except.ok { s4 with
          ttft_monitors :=
            aset s4.ttft_monitors engine_url (maUpdate m timestamp (timestamp - arr)) }

/-- `on_request_complete`: self-heal via `on_request_kill` when the arrival or
first-token record is missing; otherwise remove the id from in-decoding,
bump the finished counter, update latency and decode-duration windows, and
delete all per-request state. -/
def on_request_complete (s : MonState) (engine_url : String) (request_id : String)
    (timestamp : ℚ) : Except Unit MonState :=
  match alookup s.request_arrival_time request_id with
  | none => on_request_kill s engine_url request_id
  | some arr =>
    match alookup s.first_token_time (engine_url, request_id) with
    | none => on_request_kill s engine_url request_id
    | some ftt =>
      match alookup s.in_decoding_requests_ids engine_url with
      | none => Except.error ()
      | some ds =>
        let s1 := { s with
          in_decoding_requests_ids :=
            aset s.in_decoding_requests_ids engine_url (sdiscard request_id ds) }
        let fin := (alookup s1.finished_requests engine_url).getD 0
        let s2 := { s1 with
          finished_requests := aset s1.finished_requests engine_url (fin + 1) }
        let lm := (alookup s2.latency_monitors engine_url).getD (mkMovingAvg s.sliding_window_size)
        let s3 := { s2 with
          latency_monitors :=
            aset s2.latency_monitors engine_url (maUpdate lm timestamp (timestamp - arr)) }
        let dm :=
          (alookup s3.decoding_length_monitors engine_url).getD (mkMovingAvg s.sliding_window_size)
        let s4 := { s3 with
          decoding_length_monitors :=
            aset s3.decoding_length_monitors engine_url (maUpdate dm timestamp (timestamp - ftt)) }
        let s5 := dropDecodeTokens s4 engine_url request_id
        let s6 := dropPrefillTokens s5 engine_url request_id
        Except.ok { s6 with
          request_arrival_time := aerase s6.request_arrival_time request_id
          first_token_time := aerase s6.first_token_time (engine_url, request_id) }

/-- `on_request_swapped`: increment the per-url swapped counter only. -/
def on_request_swapped (s : MonState) (engine_url : String) (_request_id : String)
    (_timestamp : ℚ) : MonState :=
  let c := (alookup s.swapped_requests engine_url).getD 0
  { s with swapped_requests := aset s.swapped_requests engine_url (c + 1) }

/-! ### Hook traces -/

inductive Hook where
  | arrival (id : String) (t : ℚ)
  | start (url id : String) (t : ℚ)
  | routed (url id : String) (tokens : ℕ)
  | response (url id : String) (t : ℚ) (first : Bool)
  | complete (url id : String) (t : ℚ)
  | swapped (url id : String) (t : ℚ)
  | kill (url id : String)
deriving DecidableEq

def step (s : MonState) : Hook → Except Unit MonState
  | .arrival id t => Except.ok (on_request_arrival s id t)
  | .start url id t => Except.ok (on_request_start s url id t)
  | .routed url id tokens => Except.ok (on_request_routed s url id tokens)
  | .response url id t first => on_request_response s url id t first
  | .complete url id t => on_request_complete s url id t
  | .swapped url id t => Except.ok (on_request_swapped s url id t)
  | .kill url id => on_request_kill s url id

/-- Run a hook sequence; a raised exception aborts the rest (as the caller of
the monitor would observe it). -/
def run (s : MonState) : List Hook → Except Unit MonState
  | [] => Except.ok s
  | h :: rest =>
    match step s h with
    | .ok s' => run s' rest
    | .error e => Except.error e

/-- The url a hook addresses (`on_request_arrival` is url-free). -/
def hookUrl : Hook → Option String
  | .arrival _ _ => none
  | .start url _ _ => some url
  | .routed url _ _ => some url
  | .response url _ _ _ => some url
  | .complete url _ _ => some url
  | .swapped url _ _ => some url
  | .kill url _ => some url

def eIsOk : Except Unit MonState → Bool
  | .ok _ => true
  | .error _ => false

/-- Extract the state of a successful hook result (default otherwise). -/
def okOr (d : MonState) : Except Unit MonState → MonState
  | .ok s => s
  | .error _ => d

/-- `id ∈ m[url]` for a dictionary of id-sets (`False` when the url is absent,
matching `dict.get(url, set())`). -/
def inSet (m : List (String × List String)) (url id : String) : Prop :=
  id ∈ (alookup m url).getD []

instance (m : List (String × List String)) (url id : String) : Decidable (inSet m url id) := by
  unfold inSet
  infer_instance

/-! ### Block estimators (source: request_stats.py) -/

/-- `math.ceil(total_tokens / BLOCK_SIZE)`, embedded exactly over ℚ. -/
def ceilBlocksOf (total : ℕ) : ℤ := Int.ceil ((total : ℚ) / (BLOCK_SIZE : ℚ))

/-- `estimate_allocated_blocks`: 0 when either per-url container is missing;
otherwise sum `ceil((prefill + decode) / BLOCK_SIZE)` over the url's
decode-token entries, after asserting each such id is in the decoding phase
(a failing assert is `Except.error ()`). -/
def estimate_allocated_blocks (s : MonState) (engine_url : String) : Except Unit ℤ :=
  match alookup s.request_decode_tokens engine_url,
      alookup s.in_decoding_requests_ids engine_url with
  | some dt, some decSet =>
    if dt.all (fun p => decide (p.1 ∈ decSet)) then
      Except.ok (dt.foldl
        (fun acc p =>
          acc + ceilBlocksOf
            (((alookup ((alookup s.request_prefill_tokens engine_url).getD []) p.1).getD 0)
              + p.2))
        0)
    else Except.error ()
  | _, _ => Except.ok 0

/-- Total prefill tokens tracked for a url (0 when the url is absent). -/
def sumPrefillTokens (s : MonState) (engine_url : String) : ℕ :=
  (((alookup s.request_prefill_tokens engine_url).getD []).map Prod.snd).sum

/-- `estimate_pending_reserved_blocks`: 0 when the url has no prefill-token
dict; otherwise `ceil(sum * (1 + DECODE_TO_PREFILL_RATIO) / BLOCK_SIZE)`. -/
def estimate_pending_reserved_blocks (s : MonState) (engine_url : String) : ℤ :=
  match alookup s.request_prefill_tokens engine_url with
  | none => 0
  | some pt =>
    Int.ceil ((((pt.map Prod.snd).sum : ℚ) * (1 + decodeToPrefillFactor)) / (BLOCK_SIZE : ℚ))

/-! ### SingletonMeta construction discipline (source: request_stats.py) -/

/-- `SingletonMeta.__call__` for `RequestStatsMonitor`: with no cached
instance, `__init__` runs — raising `ValueError` (and caching nothing) when
`sliding_window_size` is `None`, otherwise caching the new instance; with a
cached instance it is returned unconditionally, its configuration untouched.
Returns (construction result, registry afterwards). -/
def constructMonitor (sliding_window_size : Option ℚ) (registry : Option MonState) :
    Except Unit MonState × Option MonState :=
  match registry with
  | some inst => (Except.ok inst, some inst)
  | none =>
    match sliding_window_size with
    | none => (Except.error (), none)
    | some w => (Except.ok (initMon w), some (initMon w))

/-! ### Placement policies (source: routing_logic.py) -/

structure EndpointInfo where
  url : String
deriving DecidableEq

/-- Per-replica request-stats snapshot (`RequestStats` dataclass); only the
fields the embedded policies read. -/
structure RequestStats where
  qps : ℚ
  ttft : ℚ
  in_prefill_requests : ℕ
  in_decoding_requests : ℕ
  ts_prefill_enqueue : List ℚ
  ts_decoding_enqueue : List ℚ
  avg_decoding_length : ℚ
deriving DecidableEq

/-- The lexicographic (code-point) order Python's `sorted` uses on strings,
expressed over the character data so that it evaluates in the kernel;
`urlLE_iff` identifies it with `String`'s `≤`. -/
def urlLE (a b : String) : Prop := ¬ b.toList < a.toList

instance : DecidableRel urlLE := by
  unfold urlLE
  infer_instance

theorem urlLE_iff (a b : String) : urlLE a b ↔ a ≤ b := by
  unfold urlLE
  rw [← String.lt_iff_toList_lt]
  exact not_lt

instance : IsTotal String urlLE :=
  ⟨fun a b => by rw [urlLE_iff, urlLE_iff]; exact le_total a b⟩

instance : IsTrans String urlLE :=
  ⟨fun a b c => by rw [urlLE_iff, urlLE_iff, urlLE_iff]; exact le_trans⟩

/-- `sorted(endpoints, key=lambda e: e.url)`, observed through the chosen
url: the sorted list of endpoint urls. -/
def sortedUrls (endpoints : List EndpointInfo) : List String :=
  List.insertionSort urlLE (endpoints.map EndpointInfo.url)

/-- `RoundRobinRouter.route_request`: select `sorted(endpoints)[req_id % len]`
and increment the counter.  With an empty endpoint list the source raises
`ZeroDivisionError` at `req_id % 0`, embedded as `Except.error ()`.
Returns (chosen url, counter afterwards). -/
def roundRobinRoute (endpoints : List EndpointInfo) (req_id : ℕ) :
    Except Unit (String × ℕ) :=
  if h : endpoints.length = 0 then Except.error ()
  else
    Except.ok
      ((sortedUrls endpoints).get
        ⟨req_id % endpoints.length, by
          rw [sortedUrls, List.length_insertionSort, List.length_map]
          exact Nat.mod_lt _ (Nat.pos_of_ne_zero h)⟩,
        req_id + 1)

/-- `n` successive `route_request` calls on a fresh `RoundRobinRouter`
(counter starts at 0), threading the counter; returns
(final counter, urls in call order). -/
def rrRun (endpoints : List EndpointInfo) : ℕ → Except Unit (ℕ × List String)
  | 0 => Except.ok (0, [])
  | n + 1 =>
    match rrRun endpoints n with
    | .error e => Except.error e
    | .ok (c, outs) =>
      match roundRobinRoute endpoints c with
      | .error e => Except.error e
      | .ok (u, c') => Except.ok (c', outs ++ [u])

/-- `LeastLoadedRouter.route_request`'s `estimate_work`: in-flight count from
the snapshot, 0 for an unknown url. -/
def estimateWorkLL (request_stats : List (String × RequestStats)) (url : String) : ℕ :=
  match alookup request_stats url with
  | none => 0
  | some st => st.in_prefill_requests + st.in_decoding_requests

/-- The `lowest_work = inf; for info in endpoints: ...` selection loop with
strictly-smaller updates (first url wins ties); `none` models the initial
infinity / `ret = None`. -/
def llGo (request_stats : List (String × RequestStats)) :
    List EndpointInfo → Option (ℕ × String) → Option String
  | [], best => best.map Prod.snd
  | e :: rest, best =>
    let w := estimateWorkLL request_stats e.url
    match best with
    | none => llGo request_stats rest (some (w, e.url))
    | some (bw, bu) =>
      if w < bw then llGo request_stats rest (some (w, e.url))
      else llGo request_stats rest (some (bw, bu))

/-- `LeastLoadedRouter.route_request` (returns `None` on an empty endpoint
list; the subsequent `on_request_routed(None, ...)` does not raise). -/
def leastLoadedRoute (endpoints : List EndpointInfo)
    (request_stats : List (String × RequestStats)) : Option String :=
  llGo request_stats endpoints none

/-- `CustomRouter.route_request`'s `estimate_work`: 0 for an unknown url;
`qps` when no decode-duration average exists yet; otherwise queued work plus
in-decoding work. -/
def estimateWorkCustom (request_stats : List (String × RequestStats)) (url : String) : ℚ :=
  match alookup request_stats url with
  | none => 0
  | some st =>
    if st.avg_decoding_length < 0 then st.qps
    else
      (st.ts_prefill_enqueue.length : ℚ) * st.avg_decoding_length
        + (st.ts_decoding_enqueue.map (fun td => max td st.avg_decoding_length)).sum

def customGo (request_stats : List (String × RequestStats)) :
    List EndpointInfo → Option (ℚ × String) → Option String
  | [], best => best.map Prod.snd
  | e :: rest, best =>
    let w := estimateWorkCustom request_stats e.url
    match best with
    | none => customGo request_stats rest (some (w, e.url))
    | some (bw, bu) =>
      if w < bw then customGo request_stats rest (some (w, e.url))
      else customGo request_stats rest (some (bw, bu))

/-- `CustomRouter.route_request` (returns `None` on an empty endpoint list). -/
def customRoute (endpoints : List EndpointInfo)
    (request_stats : List (String × RequestStats)) : Option String :=
  customGo request_stats endpoints none

/-- `SessionRouter._qps_routing` (the no-session-header path): early-return
the first url with no stats, else keep the strictly-lowest qps; `None` on an
empty endpoint list. -/
def qpsGo (request_stats : List (String × RequestStats)) :
    List EndpointInfo → Option ℚ → Option String → Option String
  | [], _, ret => ret
  | e :: rest, lowest, ret =>
    match alookup request_stats e.url with
    | none => some e.url
    | some st =>
      match lowest with
      | none => qpsGo request_stats rest (some st.qps) (some e.url)
      | some lo =>
        if st.qps < lo then qpsGo request_stats rest (some st.qps) (some e.url)
        else qpsGo request_stats rest (some lo) ret

def qpsRouting (endpoints : List EndpointInfo)
    (request_stats : List (String × RequestStats)) : Option String :=
  qpsGo request_stats endpoints none none

/-! ### HRA router (source: routing_logic.py, `HRARouter`) -/

/-- `_QueuedRequest` (the `request`/`future` objects are external; sorting and
admission read only these fields). -/
structure QueuedRequest where
  prefill_tokens : ℕ
  arrived_at : ℚ
  endpoints : List String
  request_id : String
deriving DecidableEq

/-- `ceil(prefill_tokens * (1 + DECODE_TO_PREFILL_RATIO) / BLOCK_SIZE)`. -/
def reqBlocks (prefill_tokens : ℕ) : ℤ :=
  Int.ceil (((prefill_tokens : ℚ) * (1 + decodeToPrefillFactor)) / (BLOCK_SIZE : ℚ))

/-- `min_free_blocks = int(TOTAL_NUMBER_OF_BLOCKS * SAFETY_FRACTION)`
(truncation = floor for this non-negative product). -/
def minFreeBlocks : ℤ := Int.floor ((TOTAL_NUMBER_OF_BLOCKS : ℚ) * SAFETY_FRACTION)

/-- Speculative update of a projection dictionary (`d[url] += delta`). -/
def bump (f : String → ℤ) (k : String) (delta : ℤ) : String → ℤ :=
  fun u => if u = k then f u + delta else f u

/-- The sweep's admissibility filter for one queued request:
`TOTAL − (allocated + pending + need) ≥ min_free_blocks`. -/
def admissibleUrls (alloc pending : String → ℤ) (need : ℤ) (endpoints : List String) :
    List String :=
  endpoints.filter (fun url =>
    decide ((TOTAL_NUMBER_OF_BLOCKS : ℤ) - (alloc url + pending url + need) ≥ minFreeBlocks))

/-- Python's `min(xs, key=f)`: first strictly-smaller element wins. -/
def argminBy (f : String → ℤ) : String → List String → String
  | best, [] => best
  | best, x :: xs => argminBy f (if f x < f best then x else best) xs

/-- `HRARouter._try_schedule`'s queue walk, parameterised by the per-url
projections the sweep precomputes from the monitor (`allocated_blocks`,
`pending_reserved_blocks`, `queue_lengths`).  Walks the queue in order; a
request with no admissible url stops the whole sweep; an admitted request
goes to the admissible url with the least queue length (first wins ties) and
the target's projections are bumped before the next request is considered.
Returns (admitted (request, url) pairs in admission order, remaining queue). -/
def trySchedule (alloc : String → ℤ) :
    List QueuedRequest → (String → ℤ) → (String → ℤ) →
      List (QueuedRequest × String) × List QueuedRequest
  | [], _, _ => ([], [])
  | qr :: rest, pending, qlen =>
    let need := reqBlocks qr.prefill_tokens
    match admissibleUrls alloc pending need qr.endpoints with
    | [] => ([], qr :: rest)
    | a :: more =>
      let target := argminBy qlen a more
      let res := trySchedule alloc rest (bump pending target need) (bump qlen target 1)
      ((qr, target) :: res.1, res.2)

/-- `(prefill_tokens, arrived_at)` sort order of `_QueuedRequest`. -/
def queueLE (a b : QueuedRequest) : Prop :=
  a.prefill_tokens < b.prefill_tokens ∨
    (a.prefill_tokens = b.prefill_tokens ∧ a.arrived_at ≤ b.arrived_at)

instance : DecidableRel queueLE := by
  unfold queueLE
  infer_instance

def sortQueue (q : List QueuedRequest) : List QueuedRequest :=
  List.insertionSort queueLE q

/-- `HRARouter.route_request`: append the new entry, re-sort by
`(prefill_tokens, arrived_at)`, and run the sweep.  Returns (admitted
pairs, remaining queue); the entry's future is resolved iff it is admitted. -/
def hraRouteRequest (queue : List QueuedRequest) (qr : QueuedRequest)
    (alloc pending qlen : String → ℤ) :
    List (QueuedRequest × String) × List QueuedRequest :=
  trySchedule alloc (sortQueue (queue ++ [qr])) pending qlen

/-! ### C10 — singleton construction -/

/-- C10: the very first `RequestStatsMonitor(...)` without a
`sliding_window_size` raises `ValueError` and caches no instance; the first
construction with a window size caches the new instance; and once an instance
is cached, every construction — with no argument, the same, or a different
window size — returns that same instance unchanged (so the originally
configured window size is kept). -/
theorem singleton_construction_spec :
    constructMonitor none none = (Except.error (), none) ∧
    (∀ w : ℚ, constructMonitor (some w) none = (Except.ok (initMon w), some (initMon w))) ∧
    (∀ (ws : Option ℚ) (m : MonState), constructMonitor ws (some m) = (Except.ok m, some m)) :=
  ⟨rfl, fun _ => rfl, fun _ _ => rfl⟩

/-! ### C7 — pending-reserved block estimate -/

/-- C7: `estimate_pending_reserved_blocks(url)` equals
`ceil(S * (1 + DECODE_TO_PREFILL_RATIO) / BLOCK_SIZE)` where `S` is the sum
of all prefill-token entries tracked for `url` (both phases), and it is 0
when `url` has no prefill-token entries. -/
theorem estimate_pending_spec :
    (∀ (s : MonState) (u : String),
      estimate_pending_reserved_blocks s u =
        Int.ceil (((sumPrefillTokens s u : ℚ) * (1 + decodeToPrefillFactor)) / (BLOCK_SIZE : ℚ))) ∧
    (∀ (s : MonState) (u : String), alookup s.request_prefill_tokens u = none →
      estimate_pending_reserved_blocks s u = 0) := by
  constructor
  · intro s u
    unfold estimate_pending_reserved_blocks sumPrefillTokens
    cases h : alookup s.request_prefill_tokens u with
    | none => simp [h]
    | some pt => simp [h]
  · intro s u h
    unfold estimate_pending_reserved_blocks
    simp [h]

theorem estimate_pending_spec_witness :
    estimate_pending_reserved_blocks (initMon 10) "u" =
      Int.ceil (((sumPrefillTokens (initMon 10) "u" : ℚ) * (1 + decodeToPrefillFactor))
        / (BLOCK_SIZE : ℚ)) ∧
    estimate_pending_reserved_blocks (initMon 10) "u" = 0 :=
  ⟨estimate_pending_spec.1 (initMon 10) "u", estimate_pending_spec.2 (initMon 10) "u" rfl⟩

/-! ### C8 — round-robin cycling -/

/-- C8: on a fresh `RoundRobinRouter` with a fixed endpoint list, the k-th
call returns the `(k mod N)`-th url of the lexicographically sorted url list,
which is sorted and cycles with period `N = len(endpoints)`; with endpoints
`b, a, c` six calls return `a, b, c, a, b, c` (see the witness). -/
theorem roundrobin_cycles (es : List EndpointInfo) (h : es ≠ []) (n : ℕ) :
    rrRun es n =
      Except.ok (n, (List.range n).map (fun k => (sortedUrls es).getD (k % es.length) "")) ∧
    List.Sorted (fun a b => a ≤ b) (sortedUrls es) ∧
    (∀ k : ℕ, (sortedUrls es).getD ((k + es.length) % es.length) "" =
      (sortedUrls es).getD (k % es.length) "") := by
  have hlen : es.length ≠ 0 := fun hc => h (List.length_eq_zero.mp hc)
  have hsorted : List.Sorted (fun a b => a ≤ b) (sortedUrls es) :=
    (List.sorted_insertionSort urlLE (es.map EndpointInfo.url)).imp
      (fun hab => (urlLE_iff _ _).mp hab)
  refine ⟨?_, hsorted, fun k => by rw [Nat.add_mod_right]⟩
  induction n with
  | zero => simp [rrRun]
  | succ n ih =>
    have hmod : n % es.length < (sortedUrls es).length := by
      rw [sortedUrls, List.length_insertionSort, List.length_map]
      exact Nat.mod_lt _ (Nat.pos_of_ne_zero hlen)
    simp only [rrRun, ih, roundRobinRoute, dif_neg hlen]
    rw [List.range_succ, List.map_append]
    simp [List.getD_eq_get _ _ hmod, List.getElem?_eq_getElem hmod]

theorem roundrobin_cycles_witness :
    rrRun [⟨"https://b"⟩, ⟨"https://a"⟩, ⟨"https://c"⟩] 6 =
      Except.ok (6, ["https://a", "https://b", "https://c",
        "https://a", "https://b", "https://c"]) := by
  rw [(roundrobin_cycles [⟨"https://b"⟩, ⟨"https://a"⟩, ⟨"https://c"⟩] (by decide) 6).1]
  rfl

/-! ### C1 — HRA sweep preserves the head-room invariant -/

/-- The head-room property of an admission list: each admitted request went to
one of its own endpoints whose projected free blocks (under the allocated
estimate, the *running* pending-reserved estimate, and the request's own
pessimistic demand) stay at or above `min_free_blocks`; and the chosen url's
pending estimate is bumped by the request's demand before later admissions
are considered. -/
def admissionsSafe (alloc : String → ℤ) :
    (String → ℤ) → List (QueuedRequest × String) → Prop
  | _, [] => True
  | pending, (qr, url) :: rest =>
    (url ∈ qr.endpoints ∧
      (TOTAL_NUMBER_OF_BLOCKS : ℤ) - (alloc url + pending url + reqBlocks qr.prefill_tokens)
        ≥ minFreeBlocks) ∧
    admissionsSafe alloc (bump pending url (reqBlocks qr.prefill_tokens)) rest

theorem argminBy_mem (f : String → ℤ) (l : List String) : ∀ b, argminBy f b l ∈ b :: l := by
  induction l with
  | nil => intro b; simp [argminBy]
  | cons x xs ih =>
    intro b
    unfold argminBy
    have h := ih (if f x < f b then x else b)
    rcases List.mem_cons.mp h with h | h
    · rw [h]
      by_cases hc : f x < f b <;> simp [hc]
    · exact List.mem_cons_of_mem _ (List.mem_cons_of_mem _ h)

theorem mem_admissibleUrls {alloc pending : String → ℤ} {need : ℤ} {eps : List String}
    {url : String} (h : url ∈ admissibleUrls alloc pending need eps) :
    url ∈ eps ∧
      (TOTAL_NUMBER_OF_BLOCKS : ℤ) - (alloc url + pending url + need) ≥ minFreeBlocks := by
  unfold admissibleUrls at h
  have h' := List.mem_filter.mp h
  exact ⟨h'.1, of_decide_eq_true h'.2⟩

theorem trySchedule_admissionsSafe (alloc : String → ℤ) (q : List QueuedRequest)
    (pending qlen : String → ℤ) :
    admissionsSafe alloc pending (trySchedule alloc q pending qlen).1 := by
  induction q generalizing pending qlen with
  | nil => trivial
  | cons qr rest ih =>
    simp only [trySchedule]
    cases hadm : admissibleUrls alloc pending (reqBlocks qr.prefill_tokens) qr.endpoints with
    | nil => trivial
    | cons a more =>
      have hmem : argminBy qlen a more ∈
          admissibleUrls alloc pending (reqBlocks qr.prefill_tokens) qr.endpoints := by
        rw [hadm]
        exact argminBy_mem qlen more a
      exact ⟨⟨(mem_admissibleUrls hmem).1, (mem_admissibleUrls hmem).2⟩, ih _ _⟩

theorem admissionsSafe_endpoints (alloc : String → ℤ) (adm : List (QueuedRequest × String)) :
    ∀ pending : String → ℤ, admissionsSafe alloc pending adm →
      ∀ p ∈ adm, p.2 ∈ p.1.endpoints := by
  induction adm with
  | nil =>
    intro pending _ p hp
    cases hp
  | cons hd tl ih =>
    obtain ⟨qr, url⟩ := hd
    intro pending hsafe p hp
    rcases List.mem_cons.mp hp with rfl | hp
    · exact hsafe.1.1
    · exact ih _ hsafe.2 p hp

/-- C1: every admission sweep is head-room safe: each admitted entry goes to
one of its endpoints for which `TOTAL_NUMBER_OF_BLOCKS − (allocated + running
pending + ceil(prefill·(1+DECODE_TO_PREFILL_RATIO)/BLOCK_SIZE))` is at least
`floor(TOTAL_NUMBER_OF_BLOCKS · SAFETY_FRACTION)`, and the chosen url's
pending estimate is increased by that demand before any later entry is
considered — so no admitted entry drops a replica below the safety head-room
under the sweep's own pessimistic accounting. -/
theorem hra_admission_headroom (alloc : String → ℤ) (q : List QueuedRequest)
    (pending qlen : String → ℤ) :
    admissionsSafe alloc pending (trySchedule alloc q pending qlen).1 :=
  trySchedule_admissionsSafe alloc q pending qlen

/-! ### C2 — the sweep stops at the first blocked entry -/

theorem trySchedule_take_drop (alloc : String → ℤ) (q : List QueuedRequest)
    (pending qlen : String → ℤ) :
    ∃ k, (trySchedule alloc q pending qlen).1.map Prod.fst = q.take k ∧
      (trySchedule alloc q pending qlen).2 = q.drop k := by
  induction q generalizing pending qlen with
  | nil => exact ⟨0, by simp [trySchedule], by simp [trySchedule]⟩
  | cons qr rest ih =>
    simp only [trySchedule]
    cases hadm : admissibleUrls alloc pending (reqBlocks qr.prefill_tokens) qr.endpoints with
    | nil => exact ⟨0, by simp, by simp⟩
    | cons a more =>
      obtain ⟨k, h1, h2⟩ :=
        ih (bump pending (argminBy qlen a more) (reqBlocks qr.prefill_tokens))
          (bump qlen (argminBy qlen a more) 1)
      exact ⟨k + 1, by simp [h1], by simp [h2]⟩

/-- C2: if entry A precedes entry B in the (already sorted) queue and A is not
admitted by the sweep, then B is not admitted by that sweep: the sweep stops
entirely at the first entry with an empty admissible set. -/
theorem hra_sweep_prefix_fair (alloc : String → ℤ) (q : List QueuedRequest)
    (pending qlen : String → ℤ) (hnd : q.Nodup) (i j : ℕ) (hij : i < j) (hj : j < q.length)
    (hA : q.get ⟨i, hij.trans hj⟩ ∉ (trySchedule alloc q pending qlen).1.map Prod.fst) :
    q.get ⟨j, hj⟩ ∉ (trySchedule alloc q pending qlen).1.map Prod.fst := by
  obtain ⟨k, h1, _⟩ := trySchedule_take_drop alloc q pending qlen
  rw [h1] at hA ⊢
  intro hB
  apply hA
  have hjk : j < k := by
    obtain ⟨m, hm⟩ := List.get_of_mem hB
    have hmlen : (m : ℕ) < min k q.length := by
      have := m.isLt
      simpa [List.length_take] using this
    have hmq : (m : ℕ) < q.length := lt_of_lt_of_le hmlen (min_le_right _ _)
    have hmk : (m : ℕ) < k := lt_of_lt_of_le hmlen (min_le_left _ _)
    have hget : q.get ⟨m, hmq⟩ = q.get ⟨j, hj⟩ := by
      rw [← hm]
      simp [List.get_take']
    have := List.Nodup.get_inj_iff hnd |>.mp hget
    have hmj : (m : ℕ) = j := congrArg Fin.val this
    omega
  have hik : i < k := hij.trans hjk
  have : (q.take k).get ⟨i, by rw [List.length_take]; exact lt_min hik (hij.trans hj)⟩ =
      q.get ⟨i, hij.trans hj⟩ := by
    simp [List.get_take']
  rw [← this]
  exact List.get_mem _ _ _

def c2Queue : List QueuedRequest :=
  [⟨100000, 0, ["u"], "a"⟩, ⟨200000, 1, ["u"], "b"⟩]

theorem hra_sweep_prefix_fair_witness :
    c2Queue.get ⟨1, by decide⟩ ∉
      (trySchedule (fun _ => 0) c2Queue (fun _ => 0) (fun _ => 0)).1.map Prod.fst :=
  hra_sweep_prefix_fair (fun _ => 0) c2Queue (fun _ => 0) (fun _ => 0)
    (by with_unfolding_all decide) 0 1 (by decide) (by decide)
    (by with_unfolding_all decide)

/-! ### C9 — empty endpoint list at route time -/

/-- C9 (amended): with an empty endpoint list, `LeastLoadedRouter`,
`CustomRouter` and the session router's QPS fallback return no url (`None`)
without raising; `RoundRobinRouter` instead raises `ZeroDivisionError` at
`req_id % 0`; and an HRA entry whose endpoint list is empty is never admitted
and stays in the queue for later sweeps. -/
theorem routing_empty_endpoints :
    (∀ c : ℕ, roundRobinRoute [] c = Except.error ()) ∧
    (∀ request_stats, leastLoadedRoute [] request_stats = none) ∧
    (∀ request_stats, customRoute [] request_stats = none) ∧
    (∀ request_stats, qpsRouting [] request_stats = none) ∧
    (∀ (queue : List QueuedRequest) (qr : QueuedRequest) (alloc pending qlen : String → ℤ),
      qr.endpoints = [] →
        qr ∈ (hraRouteRequest queue qr alloc pending qlen).2 ∧
        qr ∉ ((hraRouteRequest queue qr alloc pending qlen).1.map Prod.fst)) := by
  refine ⟨fun c => rfl, fun _ => rfl, fun _ => rfl, fun _ => rfl, ?_⟩
  intro queue qr alloc pending qlen hne
  have hq : qr ∈ sortQueue (queue ++ [qr]) :=
    (List.perm_insertionSort queueLE (queue ++ [qr])).mem_iff.mpr (by simp)
  have hnotadm :
      qr ∉ (trySchedule alloc (sortQueue (queue ++ [qr])) pending qlen).1.map Prod.fst := by
    intro hmem
    obtain ⟨p, hp, hpeq⟩ := List.mem_map.mp hmem
    have hend := admissionsSafe_endpoints alloc _ pending
      (trySchedule_admissionsSafe alloc (sortQueue (queue ++ [qr])) pending qlen) p hp
    rw [hpeq, hne] at hend
    cases hend
  refine ⟨?_, hnotadm⟩
  obtain ⟨k, h1, h2⟩ := trySchedule_take_drop alloc (sortQueue (queue ++ [qr])) pending qlen
  unfold hraRouteRequest
  rw [h2]
  have hnt : qr ∉ (sortQueue (queue ++ [qr])).take k := h1 ▸ hnotadm
  have hsplit := List.take_append_drop k (sortQueue (queue ++ [qr]))
  rw [← hsplit] at hq
  rcases List.mem_append.mp hq with hx | hx
  · exact absurd hx hnt
  · exact hx

theorem roundrobin_empty_raises_cx :
    roundRobinRoute ([] : List EndpointInfo) 0 = Except.error () := rfl

def c9Entry : QueuedRequest := ⟨100, 0, [], "x"⟩

theorem routing_empty_endpoints_witness :
    roundRobinRoute [] 0 = Except.error () ∧
    leastLoadedRoute [] [] = none ∧
    customRoute [] [] = none ∧
    qpsRouting [] [] = none ∧
    (c9Entry ∈ (hraRouteRequest [] c9Entry (fun _ => 0) (fun _ => 0) (fun _ => 0)).2 ∧
      c9Entry ∉ ((hraRouteRequest [] c9Entry (fun _ => 0) (fun _ => 0) (fun _ => 0)).1.map
        Prod.fst)) :=
  ⟨routing_empty_endpoints.1 0, routing_empty_endpoints.2.1 [],
    routing_empty_endpoints.2.2.1 [], routing_empty_endpoints.2.2.2.1 [],
    routing_empty_endpoints.2.2.2.2 [] c9Entry (fun _ => 0) (fun _ => 0) (fun _ => 0) rfl⟩

/-! ### Membership characterizations for the monitor's set dictionaries -/

theorem inSet_aset (m : List (String × List String)) (url u x : String) (l : List String) :
    inSet (aset m url l) u x ↔ (url = u ∧ x ∈ l) ∨ (url ≠ u ∧ inSet m u x) := by
  unfold inSet
  rw [alookup_aset]
  by_cases h : url = u
  · simp [h]
  · simp [h]

theorem mem_getD_sdiscard (ps : List String) (id x : String) :
    x ∈ sdiscard id ps ↔ x ∈ ps ∧ x ≠ id := mem_sdiscard id x ps

/-- After `killArrivalBlock` succeeds, the arrival record of the killed id is
gone and no other arrival record changed. -/
theorem killArrivalBlock_arrival {s s1 : MonState} {url id : String}
    (h : killArrivalBlock s url id = Except.ok s1) :
    ∀ x, alookup s1.request_arrival_time x =
      if id = x then none else alookup s.request_arrival_time x := by
  intro x
  unfold killArrivalBlock at h
  split at h
  · next harr =>
    cases h
    by_cases hx : id = x
    · subst hx
      simp [harr]
    · simp [hx]
  · next harr =>
    split at h
    · cases h
    · next hps =>
      cases h
      simp [alookup_aerase]

/-- After `killArrivalBlock` succeeds, in-prefill membership is the old
membership minus the killed `(url, id)` pair when an arrival record forced the
discard. -/
theorem killArrivalBlock_pre {s s1 : MonState} {url id : String}
    (h : killArrivalBlock s url id = Except.ok s1) :
    ∀ u x, inSet s1.in_prefill_requests_ids u x ↔
      inSet s.in_prefill_requests_ids u x ∧
        ¬((alookup s.request_arrival_time id).isSome = true ∧ u = url ∧ x = id) := by
  intro u x
  unfold killArrivalBlock at h
  split at h
  · next harr =>
    cases h
    simp [harr]
  · next t harr =>
    split at h
    · cases h
    · next ps hps =>
      cases h
      show inSet (aset s.in_prefill_requests_ids url (sdiscard id ps)) u x ↔ _
      rw [inSet_aset]
      simp only [harr, Option.isSome_some, true_and]
      constructor
      · rintro (⟨rfl, hmem⟩ | ⟨hne, hmem⟩)
        · rw [mem_sdiscard] at hmem
          refine ⟨?_, ?_⟩
          · unfold inSet
            rw [hps]
            exact hmem.1
          · rintro ⟨h1, hx⟩
            exact hmem.2 hx
        · exact ⟨hmem, fun hc => hne hc.1.symm⟩
      · rintro ⟨hmem, hnot⟩
        by_cases hu : url = u
        · subst hu
          left
          refine ⟨rfl, ?_⟩
          rw [mem_sdiscard]
          unfold inSet at hmem
          rw [hps] at hmem
          exact ⟨hmem, fun hx => hnot ⟨rfl, hx⟩⟩
        · exact Or.inr ⟨hu, hmem⟩

/-- `killArrivalBlock` does not touch the decoding set, the first-token map,
or the token dictionaries. -/
theorem killArrivalBlock_frame {s s1 : MonState} {url id : String}
    (h : killArrivalBlock s url id = Except.ok s1) :
    s1.in_decoding_requests_ids = s.in_decoding_requests_ids ∧
    s1.first_token_time = s.first_token_time ∧
    s1.request_decode_tokens = s.request_decode_tokens ∧
    s1.request_prefill_tokens = s.request_prefill_tokens := by
  unfold killArrivalBlock at h
  split at h
  · cases h
    exact ⟨rfl, rfl, rfl, rfl⟩
  · split at h
    · cases h
    · cases h
      exact ⟨rfl, rfl, rfl, rfl⟩

theorem killFirstTokenBlock_ftt {s s2 : MonState} {url id : String}
    (h : killFirstTokenBlock s url id = Except.ok s2) :
    ∀ p, alookup s2.first_token_time p =
      if (url, id) = p then none else alookup s.first_token_time p := by
  intro p
  unfold killFirstTokenBlock at h
  split at h
  · next hftt =>
    cases h
    by_cases hp : (url, id) = p
    · subst hp
      simp [hftt]
    · simp [hp]
  · next hftt =>
    split at h
    · cases h
    · next ds hds =>
      cases h
      simp [alookup_aerase]

theorem killFirstTokenBlock_dec {s s2 : MonState} {url id : String}
    (h : killFirstTokenBlock s url id = Except.ok s2) :
    ∀ u x, inSet s2.in_decoding_requests_ids u x ↔
      inSet s.in_decoding_requests_ids u x ∧
        ¬((alookup s.first_token_time (url, id)).isSome = true ∧ u = url ∧ x = id) := by
  intro u x
  unfold killFirstTokenBlock at h
  split at h
  · next hftt =>
    cases h
    simp [hftt]
  · next t hftt =>
    split at h
    · cases h
    · next ds hds =>
      cases h
      show inSet (aset s.in_decoding_requests_ids url (sdiscard id ds)) u x ↔ _
      rw [inSet_aset]
      simp only [hftt, Option.isSome_some, true_and]
      constructor
      · rintro (⟨rfl, hmem⟩ | ⟨hne, hmem⟩)
        · rw [mem_sdiscard] at hmem
          refine ⟨?_, ?_⟩
          · unfold inSet
            rw [hds]
            exact hmem.1
          · rintro ⟨h1, hx⟩
            exact hmem.2 hx
        · exact ⟨hmem, fun hc => hne hc.1.symm⟩
      · rintro ⟨hmem, hnot⟩
        by_cases hu : url = u
        · subst hu
          left
          refine ⟨rfl, ?_⟩
          rw [mem_sdiscard]
          unfold inSet at hmem
          rw [hds] at hmem
          exact ⟨hmem, fun hx => hnot ⟨rfl, hx⟩⟩
        · exact Or.inr ⟨hu, hmem⟩

theorem killFirstTokenBlock_frame {s s2 : MonState} {url id : String}
    (h : killFirstTokenBlock s url id = Except.ok s2) :
    s2.in_prefill_requests_ids = s.in_prefill_requests_ids ∧
    s2.request_arrival_time = s.request_arrival_time ∧
    s2.request_decode_tokens = s.request_decode_tokens ∧
    s2.request_prefill_tokens = s.request_prefill_tokens := by
  unfold killFirstTokenBlock at h
  split at h
  · cases h
    exact ⟨rfl, rfl, rfl, rfl⟩
  · split at h
    · cases h
    · cases h
      exact ⟨rfl, rfl, rfl, rfl⟩

/-- After `dropDecodeTokens`, the url's decode-token entry for the id is gone. -/
theorem dropDecodeTokens_entry (s : MonState) (url id : String) :
    alookup ((alookup (dropDecodeTokens s url id).request_decode_tokens url).getD []) id
      = none := by
  unfold dropDecodeTokens
  split
  · next dt hdt =>
    split
    · next hid =>
      split
      · next hemp =>
        show alookup ((alookup (aerase s.request_decode_tokens url) url).getD []) id = none
        rw [alookup_aerase]
        simp [alookup]
      · next hemp =>
        show alookup ((alookup (aset s.request_decode_tokens url (aerase dt id)) url).getD [])
            id = none
        rw [alookup_aset]
        simp [alookup_aerase]
    · next hid =>
      rw [hdt]
      simpa using hid
  · next hdt =>
    rw [hdt]
    simp [alookup]

theorem dropDecodeTokens_frame (s : MonState) (url id : String) :
    (dropDecodeTokens s url id).in_prefill_requests_ids = s.in_prefill_requests_ids ∧
    (dropDecodeTokens s url id).in_decoding_requests_ids = s.in_decoding_requests_ids ∧
    (dropDecodeTokens s url id).request_arrival_time = s.request_arrival_time ∧
    (dropDecodeTokens s url id).first_token_time = s.first_token_time ∧
    (dropDecodeTokens s url id).request_prefill_tokens = s.request_prefill_tokens := by
  unfold dropDecodeTokens
  split
  · split
    · split
      · exact ⟨rfl, rfl, rfl, rfl, rfl⟩
      · exact ⟨rfl, rfl, rfl, rfl, rfl⟩
    · exact ⟨rfl, rfl, rfl, rfl, rfl⟩
  · exact ⟨rfl, rfl, rfl, rfl, rfl⟩

theorem dropPrefillTokens_entry (s : MonState) (url id : String) :
    alookup ((alookup (dropPrefillTokens s url id).request_prefill_tokens url).getD []) id
      = none := by
  unfold dropPrefillTokens
  split
  · next pt hpt =>
    split
    · next hid =>
      split
      · next hemp =>
        show alookup ((alookup (aerase s.request_prefill_tokens url) url).getD []) id = none
        rw [alookup_aerase]
        simp [alookup]
      · next hemp =>
        show alookup ((alookup (aset s.request_prefill_tokens url (aerase pt id)) url).getD [])
            id = none
        rw [alookup_aset]
        simp [alookup_aerase]
    · next hid =>
      rw [hpt]
      simpa using hid
  · next hpt =>
    rw [hpt]
    simp [alookup]

theorem dropPrefillTokens_frame (s : MonState) (url id : String) :
    (dropPrefillTokens s url id).in_prefill_requests_ids = s.in_prefill_requests_ids ∧
    (dropPrefillTokens s url id).in_decoding_requests_ids = s.in_decoding_requests_ids ∧
    (dropPrefillTokens s url id).request_arrival_time = s.request_arrival_time ∧
    (dropPrefillTokens s url id).first_token_time = s.first_token_time ∧
    (dropPrefillTokens s url id).request_decode_tokens = s.request_decode_tokens := by
  unfold dropPrefillTokens
  split
  · split
    · split
      · exact ⟨rfl, rfl, rfl, rfl, rfl⟩
      · exact ⟨rfl, rfl, rfl, rfl, rfl⟩
    · exact ⟨rfl, rfl, rfl, rfl, rfl⟩
  · exact ⟨rfl, rfl, rfl, rfl, rfl⟩

/-! ### Assembled characterization of `on_request_kill` -/

theorem kill_destruct {s s' : MonState} {url id : String}
    (h : on_request_kill s url id = Except.ok s') :
    ∃ s1 s2, killArrivalBlock s url id = Except.ok s1 ∧
      killFirstTokenBlock s1 url id = Except.ok s2 ∧
      s' = dropPrefillTokens (dropDecodeTokens s2 url id) url id := by
  unfold on_request_kill at h
  split at h
  · cases h
  · next s1 h1 =>
    split at h
    · cases h
    · next s2 h2 =>
      cases h
      exact ⟨s1, s2, h1, h2, rfl⟩

theorem kill_arrival {s s' : MonState} {url id : String}
    (h : on_request_kill s url id = Except.ok s') :
    ∀ x, alookup s'.request_arrival_time x =
      if id = x then none else alookup s.request_arrival_time x := by
  obtain ⟨s1, s2, h1, h2, rfl⟩ := kill_destruct h
  intro x
  rw [(dropPrefillTokens_frame _ _ _).2.2.1, (dropDecodeTokens_frame _ _ _).2.2.1,
    (killFirstTokenBlock_frame h2).2.1]
  exact killArrivalBlock_arrival h1 x

theorem kill_ftt {s s' : MonState} {url id : String}
    (h : on_request_kill s url id = Except.ok s') :
    ∀ p, alookup s'.first_token_time p =
      if (url, id) = p then none else alookup s.first_token_time p := by
  obtain ⟨s1, s2, h1, h2, rfl⟩ := kill_destruct h
  intro p
  rw [(dropPrefillTokens_frame _ _ _).2.2.2.1, (dropDecodeTokens_frame _ _ _).2.2.2.1]
  rw [killFirstTokenBlock_ftt h2 p, (killArrivalBlock_frame h1).2.1]

theorem kill_pre {s s' : MonState} {url id : String}
    (h : on_request_kill s url id = Except.ok s') :
    ∀ u x, inSet s'.in_prefill_requests_ids u x ↔
      inSet s.in_prefill_requests_ids u x ∧
        ¬((alookup s.request_arrival_time id).isSome = true ∧ u = url ∧ x = id) := by
  obtain ⟨s1, s2, h1, h2, rfl⟩ := kill_destruct h
  intro u x
  unfold inSet
  rw [(dropPrefillTokens_frame _ _ _).1, (dropDecodeTokens_frame _ _ _).1,
    (killFirstTokenBlock_frame h2).1]
  exact killArrivalBlock_pre h1 u x

theorem kill_dec {s s' : MonState} {url id : String}
    (h : on_request_kill s url id = Except.ok s') :
    ∀ u x, inSet s'.in_decoding_requests_ids u x ↔
      inSet s.in_decoding_requests_ids u x ∧
        ¬((alookup s.first_token_time (url, id)).isSome = true ∧ u = url ∧ x = id) := by
  obtain ⟨s1, s2, h1, h2, rfl⟩ := kill_destruct h
  intro u x
  unfold inSet
  rw [(dropPrefillTokens_frame _ _ _).2.1, (dropDecodeTokens_frame _ _ _).2.1]
  have hd := killFirstTokenBlock_dec h2 u x
  rw [(killArrivalBlock_frame h1).2.1] at hd
  unfold inSet at hd
  rw [hd, (killArrivalBlock_frame h1).1]

theorem kill_tokens {s s' : MonState} {url id : String}
    (h : on_request_kill s url id = Except.ok s') :
    alookup ((alookup s'.request_decode_tokens url).getD []) id = none ∧
    alookup ((alookup s'.request_prefill_tokens url).getD []) id = none := by
  obtain ⟨s1, s2, h1, h2, rfl⟩ := kill_destruct h
  constructor
  · rw [(dropPrefillTokens_frame _ _ _).2.2.2.2]
    exact dropDecodeTokens_entry s2 url id
  · exact dropPrefillTokens_entry _ url id

theorem kill_ok (s : MonState) (url id : String)
    (h1 : (alookup s.request_arrival_time id).isSome = true →
      (alookup s.in_prefill_requests_ids url).isSome = true)
    (h2 : (alookup s.first_token_time (url, id)).isSome = true →
      (alookup s.in_decoding_requests_ids url).isSome = true) :
    ∃ s', on_request_kill s url id = Except.ok s' := by
  unfold on_request_kill
  have hb1 : ∃ s1, killArrivalBlock s url id = Except.ok s1 ∧
      s1.first_token_time = s.first_token_time ∧
      s1.in_decoding_requests_ids = s.in_decoding_requests_ids := by
    unfold killArrivalBlock
    cases harr : alookup s.request_arrival_time id with
    | none => exact ⟨s, rfl, rfl, rfl⟩
    | some t =>
      have := h1 (by simp [harr])
      cases hps : alookup s.in_prefill_requests_ids url with
      | none => simp [hps] at this
      | some ps => exact ⟨_, rfl, rfl, rfl⟩
  obtain ⟨s1, hs1, hftt1, hdec1⟩ := hb1
  rw [hs1]
  have hb2 : ∃ s2, killFirstTokenBlock s1 url id = Except.ok s2 := by
    unfold killFirstTokenBlock
    cases hftt : alookup s1.first_token_time (url, id) with
    | none => exact ⟨s1, rfl⟩
    | some t =>
      rw [hftt1] at hftt
      have := h2 (by simp [hftt])
      rw [← hdec1] at this
      cases hds : alookup s1.in_decoding_requests_ids url with
      | none => simp [hds] at this
      | some ds => exact ⟨_, rfl⟩
  obtain ⟨s2, hs2⟩ := hb2
  exact ⟨dropPrefillTokens (dropDecodeTokens s2 url id) url id, by simp [hs2]⟩

/-! ### Invariants and hook preconditions -/

/-- No per-request state for `(url, id)` anywhere in the monitor. -/
def noStateFor (s : MonState) (url id : String) : Prop :=
  ¬ inSet s.in_prefill_requests_ids url id ∧
  ¬ inSet s.in_decoding_requests_ids url id ∧
  alookup s.request_arrival_time id = none ∧
  alookup s.first_token_time (url, id) = none ∧
  alookup ((alookup s.request_decode_tokens url).getD []) id = none ∧
  alookup ((alookup s.request_prefill_tokens url).getD []) id = none

/-- Full cleanup by a successful `on_request_kill`, given that the state held
no *orphaned* membership for the id (a prefill membership with no arrival
record, or a decoding membership with no first-token record). -/
theorem kill_cleanup {s s' : MonState} {url id : String}
    (h : on_request_kill s url id = Except.ok s')
    (hpre : (alookup s.request_arrival_time id).isSome = false →
      ¬ inSet s.in_prefill_requests_ids url id)
    (hdec : (alookup s.first_token_time (url, id)).isSome = false →
      ¬ inSet s.in_decoding_requests_ids url id) :
    noStateFor s' url id := by
  refine ⟨?_, ?_, ?_, ?_, (kill_tokens h).1, (kill_tokens h).2⟩
  · rw [kill_pre h]
    rintro ⟨hmem, hnot⟩
    cases harr : (alookup s.request_arrival_time id).isSome with
    | false => exact hpre harr hmem
    | true => exact hnot ⟨harr, rfl, rfl⟩
  · rw [kill_dec h]
    rintro ⟨hmem, hnot⟩
    cases hftt : (alookup s.first_token_time (url, id)).isSome with
    | false => exact hdec hftt hmem
    | true => exact hnot ⟨hftt, rfl, rfl⟩
  · rw [kill_arrival h]
    simp
  · rw [kill_ftt h]
    simp

/-- C4's invariant: a request id is in at most one in-flight set, for at most
one url. -/
def Disjointness (s : MonState) : Prop :=
  ∀ u u' id,
    (inSet s.in_prefill_requests_ids u id → inSet s.in_prefill_requests_ids u' id → u = u') ∧
    (inSet s.in_decoding_requests_ids u id → inSet s.in_decoding_requests_ids u' id → u = u') ∧
    (inSet s.in_prefill_requests_ids u id → inSet s.in_decoding_requests_ids u' id → False)

/-- The id is in no in-flight set (bounded, hence decidable, form). -/
def noInFlight (s : MonState) (id : String) : Prop :=
  (∀ p ∈ s.in_prefill_requests_ids, id ∉ p.2) ∧
  (∀ p ∈ s.in_decoding_requests_ids, id ∉ p.2)

instance (s : MonState) (id : String) : Decidable (noInFlight s id) := by
  unfold noInFlight
  infer_instance

/-- The id's only possible in-flight memberships are on `url` (bounded form). -/
def onlyAt (s : MonState) (url id : String) : Prop :=
  (∀ p ∈ s.in_prefill_requests_ids, id ∈ p.2 → p.1 = url) ∧
  (∀ p ∈ s.in_decoding_requests_ids, id ∈ p.2 → p.1 = url)

instance (s : MonState) (url id : String) : Decidable (onlyAt s url id) := by
  unfold onlyAt
  infer_instance

theorem noInFlight_spec {s : MonState} {id : String} (h : noInFlight s id) (u : String) :
    ¬ inSet s.in_prefill_requests_ids u id ∧ ¬ inSet s.in_decoding_requests_ids u id := by
  constructor
  · intro hm
    unfold inSet at hm
    cases hl : alookup s.in_prefill_requests_ids u with
    | none => rw [hl] at hm; simp at hm
    | some l =>
      rw [hl] at hm
      exact h.1 (u, l) (alookup_eq_some_mem _ _ _ hl) hm
  · intro hm
    unfold inSet at hm
    cases hl : alookup s.in_decoding_requests_ids u with
    | none => rw [hl] at hm; simp at hm
    | some l =>
      rw [hl] at hm
      exact h.2 (u, l) (alookup_eq_some_mem _ _ _ hl) hm

theorem onlyAt_spec {s : MonState} {url id : String} (h : onlyAt s url id) (u : String) :
    (inSet s.in_prefill_requests_ids u id → u = url) ∧
    (inSet s.in_decoding_requests_ids u id → u = url) := by
  constructor
  · intro hm
    unfold inSet at hm
    cases hl : alookup s.in_prefill_requests_ids u with
    | none => rw [hl] at hm; simp at hm
    | some l =>
      rw [hl] at hm
      exact h.1 (u, l) (alookup_eq_some_mem _ _ _ hl) hm
  · intro hm
    unfold inSet at hm
    cases hl : alookup s.in_decoding_requests_ids u with
    | none => rw [hl] at hm; simp at hm
    | some l =>
      rw [hl] at hm
      exact h.2 (u, l) (alookup_eq_some_mem _ _ _ hl) hm

/-- The lifecycle discipline the serving layer is expected to follow: a route
decision concerns a request that has arrived and is not in flight anywhere,
and a first token concerns a request that is in flight at most on the url it
is reported for.  All other hooks are unconstrained. -/
def hookPre (s : MonState) : Hook → Prop
  | .routed _ id _ => (alookup s.request_arrival_time id).isSome = true ∧ noInFlight s id
  | .response url id _ first => first = true → onlyAt s url id
  | _ => True

instance (s : MonState) (h : Hook) : Decidable (hookPre s h) := by
  unfold hookPre
  cases h <;> infer_instance

/-- Hook sequences that respect the lifecycle discipline and raise no error. -/
inductive WFTrace : MonState → List Hook → Prop where
  | nil (s : MonState) : WFTrace s []
  | cons {s : MonState} {h : Hook} {s' : MonState} {rest : List Hook} :
      hookPre s h → step s h = Except.ok s' → WFTrace s' rest → WFTrace s (h :: rest)

theorem disjoint_of_pointwise {s s' : MonState}
    (hp : ∀ u x, inSet s'.in_prefill_requests_ids u x → inSet s.in_prefill_requests_ids u x)
    (hdd : ∀ u x, inSet s'.in_decoding_requests_ids u x → inSet s.in_decoding_requests_ids u x)
    (hd : Disjointness s) : Disjointness s' :=
  fun u u' id =>
    ⟨fun a b => ((hd u u' id).1 (hp _ _ a) (hp _ _ b)),
      fun a b => ((hd u u' id).2.1 (hdd _ _ a) (hdd _ _ b)),
      fun a b => ((hd u u' id).2.2 (hp _ _ a) (hdd _ _ b))⟩

/-- Membership characterization of `on_request_routed`. -/
theorem routed_sets (s : MonState) (url id : String) (tok : ℕ) :
    (∀ u x, inSet (on_request_routed s url id tok).in_prefill_requests_ids u x ↔
      (u = url ∧ x = id) ∨ inSet s.in_prefill_requests_ids u x) ∧
    (on_request_routed s url id tok).in_decoding_requests_ids = s.in_decoding_requests_ids ∧
    (on_request_routed s url id tok).request_arrival_time = s.request_arrival_time ∧
    (on_request_routed s url id tok).first_token_time = s.first_token_time := by
  refine ⟨?_, rfl, rfl, rfl⟩
  intro u x
  show inSet (aset s.in_prefill_requests_ids url
    (sinsert id ((alookup s.in_prefill_requests_ids url).getD []))) u x ↔ _
  rw [inSet_aset]
  constructor
  · rintro (⟨rfl, hmem⟩ | ⟨hne, hmem⟩)
    · rw [mem_sinsert] at hmem
      rcases hmem with rfl | hmem
      · exact Or.inl ⟨rfl, rfl⟩
      · exact Or.inr hmem
    · exact Or.inr hmem
  · rintro (⟨rfl, rfl⟩ | hmem)
    · exact Or.inl ⟨rfl, by rw [mem_sinsert]; exact Or.inl rfl⟩
    · by_cases hu : url = u
      · subst hu
        exact Or.inl ⟨rfl, by rw [mem_sinsert]; exact Or.inr hmem⟩
      · exact Or.inr ⟨hu, hmem⟩

/-- Case analysis of a successful `on_request_response`: either a non-first
token (book-keeping only), the ghost self-heal path (`on_request_kill` on a
state whose lifecycle fields agree with `s`), or the prefill→decoding
transition. -/
theorem response_destruct {s s' : MonState} {url id : String} {t : ℚ} {first : Bool}
    (h : on_request_response s url id t first = Except.ok s') :
    (first = false ∧
      s'.in_prefill_requests_ids = s.in_prefill_requests_ids ∧
      s'.in_decoding_requests_ids = s.in_decoding_requests_ids ∧
      s'.request_arrival_time = s.request_arrival_time ∧
      s'.first_token_time = s.first_token_time) ∨
    (first = true ∧ alookup s.request_arrival_time id = none ∧
      ∃ s1, on_request_kill s1 url id = Except.ok s' ∧
        s1.in_prefill_requests_ids = s.in_prefill_requests_ids ∧
        s1.in_decoding_requests_ids = s.in_decoding_requests_ids ∧
        s1.request_arrival_time = s.request_arrival_time ∧
        s1.first_token_time = s.first_token_time) ∨
    (first = true ∧ (alookup s.request_arrival_time id).isSome = true ∧
      (∀ u x, inSet s'.in_prefill_requests_ids u x ↔
        inSet s.in_prefill_requests_ids u x ∧ ¬(u = url ∧ x = id)) ∧
      (∀ u x, inSet s'.in_decoding_requests_ids u x ↔
        (u = url ∧ x = id) ∨ inSet s.in_decoding_requests_ids u x) ∧
      s'.request_arrival_time = s.request_arrival_time ∧
      (∀ p, alookup s'.first_token_time p =
        if (url, id) = p then some t else alookup s.first_token_time p)) := by
  unfold on_request_response at h
  split at h
  · next hfirst =>
    cases h
    exact Or.inl ⟨hfirst, rfl, rfl, rfl, rfl⟩
  · next hfirst =>
    have hft : first = true := by
      cases first
      · exact absurd rfl hfirst
      · rfl
    dsimp only at h
    split at h
    · next harr =>
      exact Or.inr (Or.inl ⟨hft, harr, _, h, rfl, rfl, rfl, rfl⟩)
    · next arr harr =>
      split at h
      · cases h
      · next ps hps =>
        cases h
        refine Or.inr (Or.inr ⟨hft, by simp [harr], ?_, ?_, rfl, ?_⟩)
        · intro u x
          show inSet (aset s.in_prefill_requests_ids url (sdiscard id ps)) u x ↔ _
          rw [inSet_aset]
          constructor
          · rintro (⟨rfl, hmem⟩ | ⟨hne, hmem⟩)
            · rw [mem_sdiscard] at hmem
              refine ⟨?_, ?_⟩
              · unfold inSet
                rw [hps]
                exact hmem.1
              · rintro ⟨h1, hx⟩
                exact hmem.2 hx
            · exact ⟨hmem, fun hc => hne hc.1.symm⟩
          · rintro ⟨hmem, hnot⟩
            by_cases hu : url = u
            · subst hu
              left
              refine ⟨rfl, ?_⟩
              rw [mem_sdiscard]
              unfold inSet at hmem
              rw [hps] at hmem
              exact ⟨hmem, fun hx => hnot ⟨rfl, hx⟩⟩
            · exact Or.inr ⟨hu, hmem⟩
        · intro u x
          show inSet (aset s.in_decoding_requests_ids url
            (sinsert id ((alookup s.in_decoding_requests_ids url).getD []))) u x ↔ _
          rw [inSet_aset]
          constructor
          · rintro (⟨rfl, hmem⟩ | ⟨hne, hmem⟩)
            · rw [mem_sinsert] at hmem
              rcases hmem with rfl | hmem
              · exact Or.inl ⟨rfl, rfl⟩
              · exact Or.inr hmem
            · exact Or.inr hmem
          · rintro (⟨rfl, rfl⟩ | hmem)
            · exact Or.inl ⟨rfl, by rw [mem_sinsert]; exact Or.inl rfl⟩
            · by_cases hu : url = u
              · subst hu
                exact Or.inl ⟨rfl, by rw [mem_sinsert]; exact Or.inr hmem⟩
              · exact Or.inr ⟨hu, hmem⟩
        · intro p
          show alookup (aset s.first_token_time (url, id) t) p = _
          rw [alookup_aset]

/-- Case analysis of a successful `on_request_complete`: the two self-heal
paths delegate to `on_request_kill` on the unmodified state; the main path
removes the id from in-decoding and deletes every per-request record. -/
theorem complete_destruct {s s' : MonState} {url id : String} {t : ℚ}
    (h : on_request_complete s url id t = Except.ok s') :
    (alookup s.request_arrival_time id = none ∧
      on_request_kill s url id = Except.ok s') ∨
    ((alookup s.request_arrival_time id).isSome = true ∧
      alookup s.first_token_time (url, id) = none ∧
      on_request_kill s url id = Except.ok s') ∨
    ((alookup s.request_arrival_time id).isSome = true ∧
      (alookup s.first_token_time (url, id)).isSome = true ∧
      s'.in_prefill_requests_ids = s.in_prefill_requests_ids ∧
      (∀ u x, inSet s'.in_decoding_requests_ids u x ↔
        inSet s.in_decoding_requests_ids u x ∧ ¬(u = url ∧ x = id)) ∧
      (∀ x, alookup s'.request_arrival_time x =
        if id = x then none else alookup s.request_arrival_time x) ∧
      (∀ p, alookup s'.first_token_time p =
        if (url, id) = p then none else alookup s.first_token_time p) ∧
      alookup ((alookup s'.request_decode_tokens url).getD []) id = none ∧
      alookup ((alookup s'.request_prefill_tokens url).getD []) id = none) := by
  unfold on_request_complete at h
  split at h
  · next harr => exact Or.inl ⟨harr, h⟩
  · next arr harr =>
    split at h
    · next hftt => exact Or.inr (Or.inl ⟨by simp [harr], hftt, h⟩)
    · next ftt hftt =>
      dsimp only at h
      split at h
      · cases h
      · next ds hds =>
        cases h
        refine Or.inr (Or.inr ⟨by simp [harr], by simp [hftt], ?_, ?_, ?_, ?_, ?_, ?_⟩)
        · show (dropPrefillTokens (dropDecodeTokens _ url id) url id).in_prefill_requests_ids
            = s.in_prefill_requests_ids
          rw [(dropPrefillTokens_frame _ _ _).1, (dropDecodeTokens_frame _ _ _).1]
        · intro u x
          have hchain : (dropPrefillTokens (dropDecodeTokens
              { s with
                in_decoding_requests_ids :=
                  aset s.in_decoding_requests_ids url (sdiscard id ds)
                finished_requests :=
                  aset s.finished_requests url
                    ((alookup s.finished_requests url).getD 0 + 1)
                latency_monitors :=
                  aset s.latency_monitors url
                    (maUpdate ((alookup s.latency_monitors url).getD
                      (mkMovingAvg s.sliding_window_size)) t (t - arr))
                decoding_length_monitors :=
                  aset s.decoding_length_monitors url
                    (maUpdate ((alookup s.decoding_length_monitors url).getD
                      (mkMovingAvg s.sliding_window_size)) t (t - ftt)) }
              url id) url id).in_decoding_requests_ids
              = aset s.in_decoding_requests_ids url (sdiscard id ds) := by
            rw [(dropPrefillTokens_frame _ _ _).2.1, (dropDecodeTokens_frame _ _ _).2.1]
          show inSet (dropPrefillTokens (dropDecodeTokens _ url id) url id
            ).in_decoding_requests_ids u x ↔ _
          unfold inSet
          rw [hchain]
          have : inSet (aset s.in_decoding_requests_ids url (sdiscard id ds)) u x ↔
              inSet s.in_decoding_requests_ids u x ∧ ¬(u = url ∧ x = id) := by
            rw [inSet_aset]
            constructor
            · rintro (⟨rfl, hmem⟩ | ⟨hne, hmem⟩)
              · rw [mem_sdiscard] at hmem
                refine ⟨?_, ?_⟩
                · unfold inSet
                  rw [hds]
                  exact hmem.1
                · rintro ⟨h1, hx⟩
                  exact hmem.2 hx
              · exact ⟨hmem, fun hc => hne hc.1.symm⟩
            · rintro ⟨hmem, hnot⟩
              by_cases hu : url = u
              · subst hu
                left
                refine ⟨rfl, ?_⟩
                rw [mem_sdiscard]
                unfold inSet at hmem
                rw [hds] at hmem
                exact ⟨hmem, fun hx => hnot ⟨rfl, hx⟩⟩
              · exact Or.inr ⟨hu, hmem⟩
          unfold inSet at this
          exact this
        · intro x
          show alookup (aerase (dropPrefillTokens (dropDecodeTokens _ url id) url id
            ).request_arrival_time id) x = _
          rw [alookup_aerase, (dropPrefillTokens_frame _ _ _).2.2.1,
            (dropDecodeTokens_frame _ _ _).2.2.1]
        · intro p
          show alookup (aerase (dropPrefillTokens (dropDecodeTokens _ url id) url id
            ).first_token_time (url, id)) p = _
          rw [alookup_aerase, (dropPrefillTokens_frame _ _ _).2.2.2.1,
            (dropDecodeTokens_frame _ _ _).2.2.2.1]
        · show alookup ((alookup (dropPrefillTokens (dropDecodeTokens _ url id) url id
            ).request_decode_tokens url).getD []) id = none
          rw [(dropPrefillTokens_frame _ _ _).2.2.2.2]
          exact dropDecodeTokens_entry _ url id
        · show alookup ((alookup (dropPrefillTokens (dropDecodeTokens _ url id) url id
            ).request_prefill_tokens url).getD []) id = none
          exact dropPrefillTokens_entry _ url id

theorem kill_preserves_disjoint {s s' : MonState} {url id : String}
    (hk : on_request_kill s url id = Except.ok s') (hd : Disjointness s) :
    Disjointness s' := by
  refine disjoint_of_pointwise ?_ ?_ hd
  · intro u x hm
    exact ((kill_pre hk u x).mp hm).1
  · intro u x hm
    exact ((kill_dec hk u x).mp hm).1

theorem step_preserves_disjoint {s s' : MonState} {h : Hook}
    (hpre : hookPre s h) (hstep : step s h = Except.ok s') (hd : Disjointness s) :
    Disjointness s' := by
  cases h with
  | arrival id t =>
    cases hstep
    exact hd
  | start url id t =>
    cases hstep
    exact hd
  | swapped url id t =>
    cases hstep
    exact hd
  | kill url id => exact kill_preserves_disjoint hstep hd
  | routed url id tok =>
    cases hstep
    obtain ⟨hchar, hdec, _, _⟩ := routed_sets s url id tok
    obtain ⟨harr, hnif⟩ := hpre
    intro u u' x
    refine ⟨?_, ?_, ?_⟩
    · intro ha hb
      rw [hchar] at ha hb
      rcases ha with ⟨ha1, ha2⟩ | ha
      · rcases hb with ⟨hb1, hb2⟩ | hb
        · exact ha1.trans hb1.symm
        · subst ha2
          exact absurd hb (noInFlight_spec hnif u').1
      · rcases hb with ⟨hb1, hb2⟩ | hb
        · subst hb2
          exact absurd ha (noInFlight_spec hnif u).1
        · exact (hd u u' x).1 ha hb
    · intro ha hb
      have hd1 : inSet (on_request_routed s url id tok).in_decoding_requests_ids u x ↔
          inSet s.in_decoding_requests_ids u x := by
        unfold inSet
        rw [hdec]
      have hd2 : inSet (on_request_routed s url id tok).in_decoding_requests_ids u' x ↔
          inSet s.in_decoding_requests_ids u' x := by
        unfold inSet
        rw [hdec]
      exact (hd u u' x).2.1 (hd1.mp ha) (hd2.mp hb)
    · intro ha hb
      have hd2 : inSet (on_request_routed s url id tok).in_decoding_requests_ids u' x ↔
          inSet s.in_decoding_requests_ids u' x := by
        unfold inSet
        rw [hdec]
      rw [hchar] at ha
      rcases ha with ⟨ha1, ha2⟩ | ha
      · subst ha2
        exact absurd (hd2.mp hb) (noInFlight_spec hnif u').2
      · exact (hd u u' x).2.2 ha (hd2.mp hb)
  | response url id t first =>
    rcases response_destruct hstep with
      ⟨hf, hp, hdc, _, _⟩ | ⟨hf, harr, s1, hk, hp, hdc, ha1, hf1⟩ |
      ⟨hf, harr, hpc, hdc, _, _⟩
    · refine disjoint_of_pointwise ?_ ?_ hd
      · intro u x hm
        unfold inSet at hm ⊢
        rw [hp] at hm
        exact hm
      · intro u x hm
        unfold inSet at hm ⊢
        rw [hdc] at hm
        exact hm
    · refine disjoint_of_pointwise ?_ ?_ hd
      · intro u x hm
        have := ((kill_pre hk u x).mp hm).1
        unfold inSet at this ⊢
        rw [hp] at this
        exact this
      · intro u x hm
        have := ((kill_dec hk u x).mp hm).1
        unfold inSet at this ⊢
        rw [hdc] at this
        exact this
    · have honly := hpre hf
      intro u u' x
      refine ⟨?_, ?_, ?_⟩
      · intro ha hb
        exact (hd u u' x).1 ((hpc u x).mp ha).1 ((hpc u' x).mp hb).1
      · intro ha hb
        rw [hdc] at ha hb
        rcases ha with ⟨ha1, ha2⟩ | ha
        · rcases hb with ⟨hb1, hb2⟩ | hb
          · exact ha1.trans hb1.symm
          · subst ha2
            exact ha1.trans ((onlyAt_spec honly u').2 hb).symm
        · rcases hb with ⟨hb1, hb2⟩ | hb
          · subst hb2
            exact ((onlyAt_spec honly u).2 ha).trans hb1.symm
          · exact (hd u u' x).2.1 ha hb
      · intro ha hb
        have ha' := (hpc u x).mp ha
        rw [hdc] at hb
        rcases hb with ⟨hb1, hb2⟩ | hb
        · subst hb2
          have hu : u = url := (onlyAt_spec honly u).1 ha'.1
          exact ha'.2 ⟨hu, rfl⟩
        · exact (hd u u' x).2.2 ha'.1 hb
  | complete url id t =>
    rcases complete_destruct hstep with
      ⟨harr, hk⟩ | ⟨harr, hftt, hk⟩ | ⟨harr, hftt, hp, hdc, _, _, _, _⟩
    · exact kill_preserves_disjoint hk hd
    · exact kill_preserves_disjoint hk hd
    · refine disjoint_of_pointwise ?_ ?_ hd
      · intro u x hm
        unfold inSet at hm ⊢
        rw [hp] at hm
        exact hm
      · intro u x hm
        exact ((hdc u x).mp hm).1

/-- Run-level invariant propagation for disjointness. -/
theorem runWF_disjoint {s : MonState} {tr : List Hook} :
    WFTrace s tr → ∀ {s' : MonState}, run s tr = Except.ok s' → Disjointness s →
      Disjointness s' := by
  intro hwf
  induction hwf with
  | nil s0 =>
    intro s' hrun hd
    cases hrun
    exact hd
  | cons hpre hstep hrest ih =>
    intro s' hrun hd
    refine ih ?_ (step_preserves_disjoint hpre hstep hd)
    unfold run at hrun
    rw [hstep] at hrun
    exact hrun

theorem initMon_disjoint (w : ℚ) : Disjointness (initMon w) := by
  intro u u' x
  refine ⟨?_, ?_, ?_⟩ <;> intro ha <;> simp [inSet, initMon, alookup] at ha

/-- The lifecycle invariant behind complete-cleanup, relative to the single
url `u0` the trace works on: a first-token record excludes prefill
membership; prefill membership implies a live arrival record; decoding
membership coincides with a first-token record; and nothing is in flight on
other urls. -/
def PsiInv (u0 : String) (s : MonState) : Prop :=
  (∀ u x, (alookup s.first_token_time (u, x)).isSome = true →
    ¬ inSet s.in_prefill_requests_ids u x) ∧
  (∀ u x, inSet s.in_prefill_requests_ids u x →
    (alookup s.request_arrival_time x).isSome = true) ∧
  (∀ u x, inSet s.in_decoding_requests_ids u x ↔
    (alookup s.first_token_time (u, x)).isSome = true) ∧
  (∀ u x, u ≠ u0 → ¬ inSet s.in_prefill_requests_ids u x ∧
    ¬ inSet s.in_decoding_requests_ids u x)

theorem psi_congr {s s' : MonState} (u0 : String)
    (hp : s'.in_prefill_requests_ids = s.in_prefill_requests_ids)
    (hdc : s'.in_decoding_requests_ids = s.in_decoding_requests_ids)
    (ha : s'.request_arrival_time = s.request_arrival_time)
    (hf : s'.first_token_time = s.first_token_time)
    (hpsi : PsiInv u0 s) : PsiInv u0 s' := by
  unfold PsiInv inSet at hpsi ⊢
  rw [hp, hdc, ha, hf]
  exact hpsi

theorem kill_preserves_psi {s s' : MonState} {u0 id : String}
    (hk : on_request_kill s u0 id = Except.ok s') (hpsi : PsiInv u0 s) : PsiInv u0 s' := by
  obtain ⟨hJ, hK, hLM, hO⟩ := hpsi
  refine ⟨?_, ?_, ?_, ?_⟩
  · intro u x hftt
    rw [kill_ftt hk] at hftt
    split at hftt
    · simp at hftt
    · intro hmem
      exact hJ u x hftt ((kill_pre hk u x).mp hmem).1
  · intro u x hmem
    rw [kill_arrival hk]
    have hm := (kill_pre hk u x).mp hmem
    by_cases hx : id = x
    · subst hx
      exfalso
      cases harr : (alookup s.request_arrival_time id).isSome with
      | false =>
        have := hK u id hm.1
        rw [harr] at this
        exact Bool.false_ne_true this
      | true =>
        by_cases hu : u = u0
        · exact hm.2 ⟨harr, hu, rfl⟩
        · exact ((hO u id hu).1 hm.1)
    · rw [if_neg hx]
      exact hK u x hm.1
  · intro u x
    rw [kill_ftt hk]
    constructor
    · intro hmem
      have hm := (kill_dec hk u x).mp hmem
      have hold := (hLM u x).mp hm.1
      by_cases hp : (u0, id) = (u, x)
      · exfalso
        cases hp
        exact hm.2 ⟨hold, rfl, rfl⟩
      · rw [if_neg hp]
        exact hold
    · intro hftt
      split at hftt
      · simp at hftt
      · next hp =>
        rw [kill_dec hk]
        refine ⟨(hLM u x).mpr hftt, ?_⟩
        rintro ⟨h1, rfl, rfl⟩
        exact hp rfl
  · intro u x hu
    exact ⟨fun hmem => (hO u x hu).1 ((kill_pre hk u x).mp hmem).1,
      fun hmem => (hO u x hu).2 ((kill_dec hk u x).mp hmem).1⟩

theorem arrival_preserves_psi {s : MonState} {u0 id : String} {t : ℚ}
    (hpsi : PsiInv u0 s) : PsiInv u0 (on_request_arrival s id t) := by
  obtain ⟨hJ, hK, hLM, hO⟩ := hpsi
  refine ⟨hJ, ?_, hLM, hO⟩
  intro u x hmem
  show (alookup (aset s.request_arrival_time id t) x).isSome = true
  rw [alookup_aset]
  by_cases hx : id = x
  · simp [hx]
  · rw [if_neg hx]
    exact hK u x hmem

theorem routed_preserves_psi {s : MonState} {u0 id : String} {tok : ℕ}
    (harr : (alookup s.request_arrival_time id).isSome = true)
    (hnif : noInFlight s id) (hpsi : PsiInv u0 s) :
    PsiInv u0 (on_request_routed s u0 id tok) := by
  obtain ⟨hJ, hK, hLM, hO⟩ := hpsi
  obtain ⟨hchar, hdec, harr2, hftt2⟩ := routed_sets s u0 id tok
  refine ⟨?_, ?_, ?_, ?_⟩
  · intro u x hftt
    rw [hftt2] at hftt
    rw [hchar]
    rintro (⟨rfl, rfl⟩ | hmem)
    · exact (noInFlight_spec hnif _).2 ((hLM _ _).mpr hftt)
    · exact hJ u x hftt hmem
  · intro u x hmem
    rw [hchar] at hmem
    rw [harr2]
    rcases hmem with ⟨rfl, rfl⟩ | hmem
    · exact harr
    · exact hK u x hmem
  · intro u x
    unfold inSet
    rw [hdec, hftt2]
    exact hLM u x
  · intro u x hu
    constructor
    · rw [hchar]
      rintro (⟨rfl, rfl⟩ | hmem)
      · exact hu rfl
      · exact (hO u x hu).1 hmem
    · intro hmem
      have hm : inSet s.in_decoding_requests_ids u x := by
        unfold inSet at hmem ⊢
        rw [hdec] at hmem
        exact hmem
      exact (hO u x hu).2 hm

theorem response_preserves_psi {s s' : MonState} {u0 id : String} {t : ℚ} {first : Bool}
    (hstep : on_request_response s u0 id t first = Except.ok s')
    (honly : first = true → onlyAt s u0 id)
    (hpsi : PsiInv u0 s) : PsiInv u0 s' := by
  rcases response_destruct hstep with
    ⟨hf, hp, hdc, ha, hft⟩ | ⟨hf, harr, s1, hk, hp, hdc, ha, hft⟩ |
    ⟨hf, harr, hpc, hdc, ha, hftc⟩
  · exact psi_congr u0 hp hdc ha hft hpsi
  · exact kill_preserves_psi hk (psi_congr u0 hp hdc ha hft hpsi)
  · obtain ⟨hJ, hK, hLM, hO⟩ := hpsi
    have honly' := honly hf
    refine ⟨?_, ?_, ?_, ?_⟩
    · intro u x hftt
      rw [hftc] at hftt
      rw [hpc]
      rintro ⟨hmem, hnot⟩
      by_cases hp2 : (u0, id) = (u, x)
      · cases hp2
        exact hnot ⟨rfl, rfl⟩
      · rw [if_neg hp2] at hftt
        exact hJ u x hftt hmem
    · intro u x hmem
      rw [ha]
      exact hK u x ((hpc u x).mp hmem).1
    · intro u x
      rw [hdc u x, hftc (u, x)]
      by_cases hp2 : (u0, id) = (u, x)
      · cases hp2
        simp
      · rw [if_neg hp2]
        constructor
        · rintro (⟨rfl, rfl⟩ | hmem)
          · exact absurd rfl hp2
          · exact (hLM _ _).mp hmem
        · intro hftt
          exact Or.inr ((hLM u x).mpr hftt)
    · intro u x hu
      constructor
      · intro hmem
        exact (hO u x hu).1 ((hpc u x).mp hmem).1
      · rw [hdc]
        rintro (⟨rfl, rfl⟩ | hmem)
        · exact hu rfl
        · exact (hO u x hu).2 hmem

theorem complete_preserves_psi {s s' : MonState} {u0 id : String} {t : ℚ}
    (hstep : on_request_complete s u0 id t = Except.ok s')
    (hpsi : PsiInv u0 s) : PsiInv u0 s' := by
  rcases complete_destruct hstep with
    ⟨_, hk⟩ | ⟨_, _, hk⟩ | ⟨harr, hftt, hp, hdc, ha, hftc, _, _⟩
  · exact kill_preserves_psi hk hpsi
  · exact kill_preserves_psi hk hpsi
  · obtain ⟨hJ, hK, hLM, hO⟩ := hpsi
    refine ⟨?_, ?_, ?_, ?_⟩
    · intro u x hf
      rw [hftc] at hf
      split at hf
      · simp at hf
      · intro hmem
        have hm : inSet s.in_prefill_requests_ids u x := by
          unfold inSet at hmem ⊢
          rw [hp] at hmem
          exact hmem
        exact hJ u x hf hm
    · intro u x hmem
      rw [ha]
      have hm : inSet s.in_prefill_requests_ids u x := by
        unfold inSet at hmem ⊢
        rw [hp] at hmem
        exact hmem
      by_cases hx : id = x
      · subst hx
        exfalso
        by_cases hu : u = u0
        · subst hu
          exact hJ _ _ hftt hm
        · exact (hO u id hu).1 hm
      · rw [if_neg hx]
        exact hK u x hm
    · intro u x
      rw [hdc u x, hftc (u, x)]
      by_cases hp2 : (u0, id) = (u, x)
      · cases hp2
        simp
      · rw [if_neg hp2]
        constructor
        · rintro ⟨hmem, hnot⟩
          exact (hLM u x).mp hmem
        · intro hf
          refine ⟨(hLM u x).mpr hf, ?_⟩
          rintro ⟨rfl, rfl⟩
          exact hp2 rfl
    · intro u x hu
      constructor
      · intro hmem
        have hm : inSet s.in_prefill_requests_ids u x := by
          unfold inSet at hmem ⊢
          rw [hp] at hmem
          exact hmem
        exact (hO u x hu).1 hm
      · intro hmem
        exact (hO u x hu).2 ((hdc u x).mp hmem).1

theorem step_preserves_psi {s s' : MonState} {h : Hook} {u0 : String}
    (hurl : hookUrl h = none ∨ hookUrl h = some u0)
    (hpre : hookPre s h) (hstep : step s h = Except.ok s') (hpsi : PsiInv u0 s) :
    PsiInv u0 s' := by
  cases h with
  | arrival id t =>
    cases hstep
    exact arrival_preserves_psi hpsi
  | start url id t =>
    cases hstep
    exact hpsi
  | swapped url id t =>
    cases hstep
    exact hpsi
  | routed url id tok =>
    have hu : url = u0 := by
      rcases hurl with h | h
      · cases h
      · exact Option.some.inj h
    subst hu
    cases hstep
    exact routed_preserves_psi hpre.1 hpre.2 hpsi
  | response url id t first =>
    have hu : url = u0 := by
      rcases hurl with h | h
      · cases h
      · exact Option.some.inj h
    subst hu
    exact response_preserves_psi hstep hpre hpsi
  | complete url id t =>
    have hu : url = u0 := by
      rcases hurl with h | h
      · cases h
      · exact Option.some.inj h
    subst hu
    exact complete_preserves_psi hstep hpsi
  | kill url id =>
    have hu : url = u0 := by
      rcases hurl with h | h
      · cases h
      · exact Option.some.inj h
    subst hu
    exact kill_preserves_psi hstep hpsi

theorem runWF_psi {s : MonState} {tr : List Hook} {u0 : String} :
    WFTrace s tr → ∀ {s' : MonState}, run s tr = Except.ok s' →
      (∀ h ∈ tr, hookUrl h = none ∨ hookUrl h = some u0) →
      PsiInv u0 s → PsiInv u0 s' := by
  intro hwf
  induction hwf with
  | nil s0 =>
    intro s' hrun _ hpsi
    cases hrun
    exact hpsi
  | cons hpre hstep hrest ih =>
    intro s' hrun hurl hpsi
    refine ih ?_ (fun h hm => hurl h (List.mem_cons_of_mem _ hm))
      (step_preserves_psi (hurl _ (List.mem_cons_self _ _)) hpre hstep hpsi)
    unfold run at hrun
    rw [hstep] at hrun
    exact hrun

theorem initMon_psi (w : ℚ) (u0 : String) : PsiInv u0 (initMon w) := by
  refine ⟨?_, ?_, ?_, ?_⟩ <;> intro u x <;>
    simp [inSet, initMon, alookup]

/-- Full cleanup by a successful `on_request_complete` from any state
satisfying the lifecycle invariant. -/
theorem complete_cleanup_of_psi {s s' : MonState} {u0 id : String} {t : ℚ}
    (hpsi : PsiInv u0 s) (hc : on_request_complete s u0 id t = Except.ok s') :
    noStateFor s' u0 id := by
  obtain ⟨hJ, hK, hLM, hO⟩ := hpsi
  rcases complete_destruct hc with
    ⟨harr, hk⟩ | ⟨harr, hftt, hk⟩ | ⟨harr, hftt, hp, hdc, ha, hftc, hdt, hpt⟩
  · refine kill_cleanup hk ?_ ?_
    · intro _ hm
      have := hK u0 id hm
      rw [harr] at this
      exact Bool.false_ne_true this
    · intro hf hm
      have := (hLM u0 id).mp hm
      rw [hf] at this
      exact Bool.false_ne_true this
  · refine kill_cleanup hk ?_ ?_
    · intro h1 _
      rw [harr] at h1
      simp at h1
    · intro _ hm
      have := (hLM u0 id).mp hm
      rw [hftt] at this
      simp at this
  · refine ⟨?_, ?_, ?_, ?_, hdt, hpt⟩
    · intro hm
      have hmm : inSet s.in_prefill_requests_ids u0 id := by
        unfold inSet at hm ⊢
        rw [hp] at hm
        exact hm
      exact hJ u0 id hftt hmm
    · rw [hdc]
      rintro ⟨hmem, hnot⟩
      exact hnot ⟨rfl, rfl⟩
    · rw [ha]
      simp
    · rw [hftc]
      simp

/-! ### C4 — in-flight sets are disjoint -/

/-- C4 (amended): along any hook sequence that respects the lifecycle
discipline (`hookPre`: a routed id has arrived and is in no in-flight set; a
first-token id is in flight at most on that url), every request id is in at
most one of the in-prefill / in-decoding sets, for at most one url. -/
theorem monitor_inflight_disjoint (w : ℚ) (tr : List Hook) (s' : MonState)
    (hwf : WFTrace (initMon w) tr) (hrun : run (initMon w) tr = Except.ok s') :
    Disjointness s' :=
  runWF_disjoint hwf hrun (initMon_disjoint w)

def c4wTrace : List Hook :=
  [Hook.arrival "r" 0, Hook.routed "u" "r" 5, Hook.response "u" "r" 1 true]

def c4wS1 : MonState := okOr (initMon 10) (step (initMon 10) (Hook.arrival "r" 0))

def c4wS2 : MonState := okOr c4wS1 (step c4wS1 (Hook.routed "u" "r" 5))

def c4wS3 : MonState := okOr c4wS2 (step c4wS2 (Hook.response "u" "r" 1 true))

theorem monitor_inflight_disjoint_witness : Disjointness c4wS3 :=
  monitor_inflight_disjoint 10 c4wTrace c4wS3
    (WFTrace.cons trivial (by with_unfolding_all rfl)
      (WFTrace.cons (by with_unfolding_all decide) (by with_unfolding_all rfl)
        (WFTrace.cons (by with_unfolding_all decide) (by with_unfolding_all rfl)
          (WFTrace.nil _))))
    (by with_unfolding_all rfl)

def c4CxTrace : List Hook :=
  [Hook.arrival "r" 0, Hook.routed "u1" "r" 5, Hook.routed "u2" "r" 5]

def c4CxFinal : MonState := okOr (initMon 10) (run (initMon 10) c4CxTrace)

/-- C4 counterexample: routing the same id to two urls (legal hook calls —
the monitor does not reject them) puts it into the in-prefill sets of both
`u1` and `u2`: the unrestricted claim "for all hook sequences" is false. -/
theorem monitor_inflight_disjoint_cx :
    run (initMon 10) c4CxTrace = Except.ok c4CxFinal ∧
    inSet c4CxFinal.in_prefill_requests_ids "u1" "r" ∧
    inSet c4CxFinal.in_prefill_requests_ids "u2" "r" ∧
    ¬ Disjointness c4CxFinal := by
  refine ⟨by with_unfolding_all rfl, by with_unfolding_all decide,
    by with_unfolding_all decide, ?_⟩
  intro hd
  have h12 := (hd "u1" "u2" "r").1 (by with_unfolding_all decide)
    (by with_unfolding_all decide)
  exact absurd h12 (by decide)

/-! ### C5 — complete removes every trace of the id -/

/-- C5 (amended): for hook sequences on a single url that respect the
lifecycle discipline (`hookPre`), a successful `on_request_complete` leaves
the id in neither in-flight set and deletes its arrival-time, first-token,
decode-token and prefill-token records: nothing of the id remains for that
url. -/
theorem monitor_complete_cleanup (w : ℚ) (u0 : String) (tr : List Hook)
    (s s' : MonState) (id : String) (t : ℚ)
    (hurl : ∀ h ∈ tr, hookUrl h = none ∨ hookUrl h = some u0)
    (hwf : WFTrace (initMon w) tr)
    (hrun : run (initMon w) tr = Except.ok s)
    (hcomp : on_request_complete s u0 id t = Except.ok s') :
    noStateFor s' u0 id :=
  complete_cleanup_of_psi (runWF_psi hwf hrun hurl (initMon_psi w u0)) hcomp

def c5wTrace : List Hook :=
  [Hook.arrival "r" 0, Hook.routed "u" "r" 5, Hook.response "u" "r" 1 true]

def c5wS1 : MonState := okOr (initMon 10) (step (initMon 10) (Hook.arrival "r" 0))

def c5wS2 : MonState := okOr c5wS1 (step c5wS1 (Hook.routed "u" "r" 5))

def c5wS3 : MonState := okOr c5wS2 (step c5wS2 (Hook.response "u" "r" 1 true))

def c5wS4 : MonState := okOr c5wS3 (on_request_complete c5wS3 "u" "r" 2)

theorem monitor_complete_cleanup_witness : noStateFor c5wS4 "u" "r" :=
  monitor_complete_cleanup 10 "u" c5wTrace c5wS3 c5wS4 "r" 2
    (by decide)
    (WFTrace.cons trivial (by with_unfolding_all rfl)
      (WFTrace.cons (by with_unfolding_all decide) (by with_unfolding_all rfl)
        (WFTrace.cons (by with_unfolding_all decide) (by with_unfolding_all rfl)
          (WFTrace.nil _))))
    (by with_unfolding_all rfl)
    (by with_unfolding_all rfl)

def c5CxTrace : List Hook := [Hook.routed "u" "r" 5, Hook.complete "u" "r" 0]

def c5CxFinal : MonState := okOr (initMon 10) (run (initMon 10) c5CxTrace)

/-- C5 counterexample: on one url with a single (trivially distinct) id, an
`on_request_routed` with no preceding arrival followed by
`on_request_complete` returns normally but leaves the id in the in-prefill
set — `id` still appears in an internal structure after completion, so the
unrestricted claim is false. -/
theorem monitor_complete_cleanup_cx :
    run (initMon 10) c5CxTrace = Except.ok c5CxFinal ∧
    inSet c5CxFinal.in_prefill_requests_ids "u" "r" ∧
    ¬ noStateFor c5CxFinal "u" "r" := by
  refine ⟨by with_unfolding_all rfl, by with_unfolding_all decide, ?_⟩
  intro hns
  exact hns.1 (by with_unfolding_all decide)

/-! ### C3 — hook error behavior and self-healing -/

/-- The exact no-`KeyError` conditions of each hook: whenever a hook would
discard from `in_prefill_requests_ids[url]` (resp.
`in_decoding_requests_ids[url]`), that url key must exist. -/
def stepOkCond (s : MonState) : Hook → Prop
  | .kill url id =>
    ((alookup s.request_arrival_time id).isSome = true →
      (alookup s.in_prefill_requests_ids url).isSome = true) ∧
    ((alookup s.first_token_time (url, id)).isSome = true →
      (alookup s.in_decoding_requests_ids url).isSome = true)
  | .response url id _ first =>
    (first = true → (alookup s.request_arrival_time id).isSome = true →
      (alookup s.in_prefill_requests_ids url).isSome = true) ∧
    (first = true → (alookup s.request_arrival_time id).isSome = false →
      (alookup s.first_token_time (url, id)).isSome = true →
      (alookup s.in_decoding_requests_ids url).isSome = true)
  | .complete url id _ =>
    ((alookup s.request_arrival_time id).isSome = true →
      (alookup s.first_token_time (url, id)).isSome = true →
      (alookup s.in_decoding_requests_ids url).isSome = true) ∧
    ((alookup s.request_arrival_time id).isSome = true →
      (alookup s.first_token_time (url, id)).isSome = false →
      (alookup s.in_prefill_requests_ids url).isSome = true) ∧
    ((alookup s.request_arrival_time id).isSome = false →
      (alookup s.first_token_time (url, id)).isSome = true →
      (alookup s.in_decoding_requests_ids url).isSome = true)
  | _ => True

instance (s : MonState) (h : Hook) : Decidable (stepOkCond s h) := by
  unfold stepOkCond
  cases h <;> infer_instance

theorem response_ok (s : MonState) (url id : String) (t : ℚ) (first : Bool)
    (h1 : first = true → (alookup s.request_arrival_time id).isSome = true →
      (alookup s.in_prefill_requests_ids url).isSome = true)
    (h2 : first = true → (alookup s.request_arrival_time id).isSome = false →
      (alookup s.first_token_time (url, id)).isSome = true →
      (alookup s.in_decoding_requests_ids url).isSome = true) :
    ∃ s', on_request_response s url id t first = Except.ok s' := by
  unfold on_request_response
  by_cases hf : first = false
  · rw [if_pos hf]
    exact ⟨_, rfl⟩
  · rw [if_neg hf]
    have hft : first = true := by
      cases first
      · exact absurd rfl hf
      · rfl
    dsimp only
    cases harr : alookup s.request_arrival_time id with
    | none =>
      apply kill_ok
      · intro hsome
        rw [harr] at hsome
        simp at hsome
      · intro hsome
        exact h2 hft (by rw [harr]; rfl) hsome
    | some arr =>
      cases hps : alookup s.in_prefill_requests_ids url with
      | none => exact absurd (h1 hft (by rw [harr]; rfl)) (by rw [hps]; simp)
      | some ps => exact ⟨_, rfl⟩

theorem complete_ok (s : MonState) (url id : String) (t : ℚ)
    (c1 : (alookup s.request_arrival_time id).isSome = true →
      (alookup s.first_token_time (url, id)).isSome = true →
      (alookup s.in_decoding_requests_ids url).isSome = true)
    (c2 : (alookup s.request_arrival_time id).isSome = true →
      (alookup s.first_token_time (url, id)).isSome = false →
      (alookup s.in_prefill_requests_ids url).isSome = true)
    (c3 : (alookup s.request_arrival_time id).isSome = false →
      (alookup s.first_token_time (url, id)).isSome = true →
      (alookup s.in_decoding_requests_ids url).isSome = true) :
    ∃ s', on_request_complete s url id t = Except.ok s' := by
  unfold on_request_complete
  cases harr : alookup s.request_arrival_time id with
  | none =>
    apply kill_ok
    · intro hsome
      rw [harr] at hsome
      simp at hsome
    · intro hsome
      exact c3 (by rw [harr]; rfl) hsome
  | some arr =>
    cases hftt : alookup s.first_token_time (url, id) with
    | none =>
      apply kill_ok
      · intro _
        exact c2 (by rw [harr]; rfl) (by rw [hftt]; rfl)
      · intro hsome
        rw [hftt] at hsome
        simp at hsome
    | some ftt =>
      cases hds : alookup s.in_decoding_requests_ids url with
      | none =>
        exact absurd (c1 (by rw [harr]; rfl) (by rw [hftt]; rfl)) (by rw [hds]; simp)
      | some ds =>
        dsimp only
        exact ⟨_, rfl⟩

theorem stepOk_of_cond (s : MonState) (h : Hook) (hc : stepOkCond s h) :
    eIsOk (step s h) = true := by
  cases h with
  | arrival id t => rfl
  | start url id t => rfl
  | routed url id tok => rfl
  | swapped url id t => rfl
  | kill url id =>
    obtain ⟨s', hs⟩ := kill_ok s url id hc.1 hc.2
    show eIsOk (on_request_kill s url id) = true
    rw [hs]
    rfl
  | response url id t first =>
    obtain ⟨s', hs⟩ := response_ok s url id t first hc.1 hc.2
    show eIsOk (on_request_response s url id t first) = true
    rw [hs]
    rfl
  | complete url id t =>
    obtain ⟨s', hs⟩ := complete_ok s url id t hc.1 hc.2.1 hc.2.2
    show eIsOk (on_request_complete s url id t) = true
    rw [hs]
    rfl

theorem response_ghost_cleanup (s : MonState) (url id : String) (t : ℚ)
    (harr : alookup s.request_arrival_time id = none)
    (hpre : ¬ inSet s.in_prefill_requests_ids url id)
    (hdecM : inSet s.in_decoding_requests_ids url id →
      (alookup s.first_token_time (url, id)).isSome = true)
    (hdom : (alookup s.first_token_time (url, id)).isSome = true →
      (alookup s.in_decoding_requests_ids url).isSome = true) :
    eIsOk (on_request_response s url id t true) = true ∧
    noStateFor (okOr s (on_request_response s url id t true)) url id := by
  obtain ⟨s', hs⟩ := response_ok s url id t true
    (fun _ hsome => by rw [harr] at hsome; simp at hsome)
    (fun _ _ => hdom)
  rw [hs]
  refine ⟨rfl, ?_⟩
  show noStateFor s' url id
  rcases response_destruct hs with
    ⟨hf, _⟩ | ⟨_, harr2, s1, hk, hp, hdc, ha, hft⟩ | ⟨_, hsome, _⟩
  · cases hf
  · refine kill_cleanup hk ?_ ?_
    · intro _ hm
      apply hpre
      unfold inSet at hm ⊢
      rw [hp] at hm
      exact hm
    · intro hf2 hm
      have hmm : inSet s.in_decoding_requests_ids url id := by
        unfold inSet at hm ⊢
        rw [hdc] at hm
        exact hm
      have hT := hdecM hmm
      rw [hft] at hf2
      rw [hT] at hf2
      exact absurd hf2 (by simp)
  · rw [harr] at hsome
    simp at hsome

theorem complete_missing_cleanup (s : MonState) (url id : String) (t : ℚ)
    (hmiss : alookup s.request_arrival_time id = none ∨
      alookup s.first_token_time (url, id) = none)
    (hKm : inSet s.in_prefill_requests_ids url id →
      (alookup s.request_arrival_time id).isSome = true)
    (hMm : inSet s.in_decoding_requests_ids url id →
      (alookup s.first_token_time (url, id)).isSome = true)
    (hpreD : (alookup s.request_arrival_time id).isSome = true →
      (alookup s.in_prefill_requests_ids url).isSome = true)
    (hdecD : (alookup s.first_token_time (url, id)).isSome = true →
      (alookup s.in_decoding_requests_ids url).isSome = true) :
    eIsOk (on_request_complete s url id t) = true ∧
    noStateFor (okOr s (on_request_complete s url id t)) url id := by
  obtain ⟨s', hs⟩ := complete_ok s url id t (fun _ hf => hdecD hf)
    (fun ha _ => hpreD ha) (fun _ hf => hdecD hf)
  rw [hs]
  refine ⟨rfl, ?_⟩
  show noStateFor s' url id
  rcases complete_destruct hs with ⟨harr, hk⟩ | ⟨harr, hftt, hk⟩ | ⟨harr, hftt, _⟩
  · exact kill_cleanup hk
      (fun _ hm => absurd (hKm hm) (by rw [harr]; simp))
      (fun hf hm => absurd (hMm hm) (by rw [hf]; simp))
  · exact kill_cleanup hk
      (fun h1 _ => by rw [harr] at h1; simp at h1)
      (fun _ hm => absurd (hMm hm) (by rw [hftt]; simp))
  · rcases hmiss with hm | hm
    · rw [hm] at harr
      simp at harr
    · rw [hm] at hftt
      simp at hftt

/-- C3 (amended): hooks return normally exactly under `stepOkCond` — in
particular `on_request_kill`, a first-token `on_request_response`, and
`on_request_complete` raise `KeyError` when the id still has an arrival
record but the url has no in-prefill entry (no request was ever routed to
it); see the counterexample.  The documented self-heal paths do hold: a
first-token response for an id with no recorded arrival, and a completion
with a missing arrival or first-token record, run `on_request_kill` and
return normally with no state retained for the id. -/
theorem monitor_hooks_no_raise :
    (∀ (s : MonState) (h : Hook), stepOkCond s h → eIsOk (step s h) = true) ∧
    (∀ (s : MonState) (url id : String) (t : ℚ),
      alookup s.request_arrival_time id = none →
      ¬ inSet s.in_prefill_requests_ids url id →
      (inSet s.in_decoding_requests_ids url id →
        (alookup s.first_token_time (url, id)).isSome = true) →
      ((alookup s.first_token_time (url, id)).isSome = true →
        (alookup s.in_decoding_requests_ids url).isSome = true) →
      eIsOk (on_request_response s url id t true) = true ∧
      noStateFor (okOr s (on_request_response s url id t true)) url id) ∧
    (∀ (s : MonState) (url id : String) (t : ℚ),
      (alookup s.request_arrival_time id = none ∨
        alookup s.first_token_time (url, id) = none) →
      (inSet s.in_prefill_requests_ids url id →
        (alookup s.request_arrival_time id).isSome = true) →
      (inSet s.in_decoding_requests_ids url id →
        (alookup s.first_token_time (url, id)).isSome = true) →
      ((alookup s.request_arrival_time id).isSome = true →
        (alookup s.in_prefill_requests_ids url).isSome = true) →
      ((alookup s.first_token_time (url, id)).isSome = true →
        (alookup s.in_decoding_requests_ids url).isSome = true) →
      eIsOk (on_request_complete s url id t) = true ∧
      noStateFor (okOr s (on_request_complete s url id t)) url id) :=
  ⟨stepOk_of_cond,
    fun s url id t => response_ghost_cleanup s url id t,
    fun s url id t => complete_missing_cleanup s url id t⟩

/-- C3 counterexample: from the reachable state after `on_request_arrival`,
the hook `on_request_response(url, id, t, is_first_token=True)` raises
`KeyError` (the unguarded `self.in_prefill_requests_ids[engine_url]` access),
so hooks do not always return normally. -/
theorem monitor_hooks_no_raise_cx :
    run (initMon 10) [Hook.arrival "r" 0, Hook.response "u" "r" 1 true] =
      Except.error () := by
  with_unfolding_all rfl

theorem monitor_hooks_no_raise_witness :
    eIsOk (step (initMon 10) (Hook.kill "u" "r")) = true ∧
    (eIsOk (on_request_response (initMon 10) "u" "ghost" 1 true) = true ∧
      noStateFor (okOr (initMon 10) (on_request_response (initMon 10) "u" "ghost" 1 true))
        "u" "ghost") ∧
    (eIsOk (on_request_complete (initMon 10) "u" "r" 1) = true ∧
      noStateFor (okOr (initMon 10) (on_request_complete (initMon 10) "u" "r" 1)) "u" "r") :=
  ⟨monitor_hooks_no_raise.1 (initMon 10) (Hook.kill "u" "r") (by decide),
    monitor_hooks_no_raise.2.1 (initMon 10) "u" "ghost" 1 rfl (by decide) (by decide)
      (by decide),
    monitor_hooks_no_raise.2.2 (initMon 10) "u" "r" 1 (Or.inl rfl) (by decide) (by decide)
      (by decide) (by decide)⟩

/-! ### C6 — allocated-block estimate -/

theorem foldl_add_map {α : Type} (g : α → ℤ) (l : List α) (c : ℤ) :
    l.foldl (fun acc p => acc + g p) c = c + (l.map g).sum := by
  induction l generalizing c with
  | nil => simp
  | cons p t ih => simp [ih, add_assoc]

theorem alookup_of_mem_nodup {α β : Type} [DecidableEq α] (l : List (α × β))
    (hnd : (l.map Prod.fst).Nodup) (p : α × β) (hp : p ∈ l) :
    alookup l p.1 = some p.2 := by
  induction l with
  | nil => cases hp
  | cons q t ih =>
    rcases List.mem_cons.mp hp with rfl | hp
    · simp [alookup]
    · have hq : ¬ q.1 = p.1 := by
        intro he
        have : p.1 ∈ t.map Prod.fst := List.mem_map.mpr ⟨p, hp, rfl⟩
        rw [List.map_cons] at hnd
        exact (List.nodup_cons.mp hnd).1 (he ▸ this)
      simp only [alookup, if_neg hq]
      exact ih (List.nodup_cons.mp (List.map_cons _ _ _ ▸ hnd)).2 hp

/-- C6 (amended): `estimate_allocated_blocks(url)` returns 0 when the monitor
holds no decode-token or in-decoding state for the url, and — provided the
asserted invariant holds, i.e. the ids with decode tokens on the url are
exactly the ids in its decoding phase — it equals the sum over the in-decoding
requests of `ceil((prefill_tokens + decode_tokens) / BLOCK_SIZE)`, a missing
prefill entry counting as 0.  When a decode-token id is *not* in the decoding
phase the source instead raises `AssertionError` (see the counterexample). -/
theorem estimate_allocated_spec :
    (∀ (s : MonState) (u : String),
      (alookup s.request_decode_tokens u = none ∨
        alookup s.in_decoding_requests_ids u = none) →
      estimate_allocated_blocks s u = Except.ok 0) ∧
    (∀ (s : MonState) (u : String) (dt : List (String × ℕ)) (decSet : List String),
      alookup s.request_decode_tokens u = some dt →
      alookup s.in_decoding_requests_ids u = some decSet →
      (dt.map Prod.fst).Nodup → decSet.Nodup →
      (∀ x, x ∈ decSet ↔ x ∈ dt.map Prod.fst) →
      estimate_allocated_blocks s u = Except.ok
        ((decSet.map (fun x => ceilBlocksOf
          ((alookup ((alookup s.request_prefill_tokens u).getD []) x).getD 0
            + (alookup dt x).getD 0))).sum)) := by
  constructor
  · intro s u hmiss
    unfold estimate_allocated_blocks
    rcases hmiss with hm | hm
    · rw [hm]
    · rw [hm]
      cases alookup s.request_decode_tokens u <;> rfl
  · intro s u dt decSet hdt hdec hnd1 hnd2 hiff
    unfold estimate_allocated_blocks
    simp only [hdt, hdec]
    have hall : dt.all (fun p => decide (p.1 ∈ decSet)) = true := by
      rw [List.all_eq_true]
      intro p hp
      rw [decide_eq_true_iff]
      exact (hiff p.1).mpr (List.mem_map.mpr ⟨p, hp, rfl⟩)
    rw [if_pos hall]
    congr 1
    rw [foldl_add_map, zero_add]
    have hmapeq : dt.map (fun p => ceilBlocksOf
        ((alookup ((alookup s.request_prefill_tokens u).getD []) p.1).getD 0 + p.2)) =
      (dt.map Prod.fst).map (fun x => ceilBlocksOf
        ((alookup ((alookup s.request_prefill_tokens u).getD []) x).getD 0
          + (alookup dt x).getD 0)) := by
      rw [List.map_map]
      rw [List.map_eq_map_iff]
      intro p hp
      have hlk := alookup_of_mem_nodup dt hnd1 p hp
      simp [Function.comp, hlk]
    rw [hmapeq]
    have hperm : List.Perm (dt.map Prod.fst) decSet :=
      (List.perm_ext_iff_of_nodup hnd1 hnd2).mpr (fun a => (hiff a).symm)
    exact List.Perm.sum_eq (hperm.map _)

def c6CxTrace : List Hook :=
  [Hook.arrival "r1" 0, Hook.routed "u" "r1" 4, Hook.response "u" "r1" 1 true,
    Hook.arrival "r2" 0, Hook.routed "u" "r2" 4, Hook.response "u" "r2" 2 false]

def c6CxState : MonState := okOr (initMon 10) (run (initMon 10) c6CxTrace)

/-- C6 counterexample: in the reachable state where `r2` has received a
non-first token (decode tokens recorded) but no first token yet (not in the
decoding phase), `estimate_allocated_blocks` raises `AssertionError` instead
of returning the sum over the in-decoding requests. -/
theorem estimate_allocated_cx :
    run (initMon 10) c6CxTrace = Except.ok c6CxState ∧
    estimate_allocated_blocks c6CxState "u" = Except.error () :=
  ⟨by with_unfolding_all rfl, by with_unfolding_all rfl⟩

def c6wTrace : List Hook :=
  [Hook.arrival "r" 0, Hook.routed "u" "r" 4, Hook.response "u" "r" 1 true]

def c6wState : MonState := okOr (initMon 10) (run (initMon 10) c6wTrace)

theorem estimate_allocated_spec_witness :
    estimate_allocated_blocks (initMon 10) "x" = Except.ok 0 ∧
    estimate_allocated_blocks c6wState "u" = Except.ok
      ((["r"].map (fun x => ceilBlocksOf
        ((alookup ((alookup c6wState.request_prefill_tokens "u").getD []) x).getD 0
          + (alookup [("r", 1)] x).getD 0))).sum) :=
  ⟨estimate_allocated_spec.1 (initMon 10) "x" (Or.inl rfl),
    estimate_allocated_spec.2 c6wState "u" [("r", 1)] ["r"]
      (by with_unfolding_all rfl) (by with_unfolding_all rfl) (by decide) (by decide)
      (fun x => Iff.rfl)⟩
